import Mathlib

/-!
postgres_exporter: per-server metric-query instrumentation.

A shallow embedding of `cmd/postgres_exporter/server_metrics.go`.

The file under study builds two metric vectors of the Prometheus client
library (`prometheus.GaugeVec`, `prometheus.CounterVec`) and drives them
through `WithLabelValues(..).Set/Inc/Add` and `Collect`.  The library is a
dependency, not part of the repository; it is embedded here at the level of
its documented interface:

* a metric vector is a descriptor plus a map from the value of its single
  variable label (`query`) to a metric; `WithLabelValues` returns the
  metric of that label value and creates it (at zero) when it is missing;
* `Gauge.Set` overwrites, `Counter.Inc` adds one, `Counter.Add v` adds `v`;
* `Collect` sends one sample per stored metric, without changing the vector;
* descriptor errors are recorded inside the descriptor (`NewDesc`), the
  constructors of the vectors do not fail; a descriptor with an error holds
  no constant label, so the samples of its family carry only `query`;
* `WithLabelValues` validates its label value and panics when the value is
  not valid UTF-8.

Go maps are association lists (each key once, first match wins on lookup),
a channel is the list of values sent so far, Go strings are Lean strings
(text that is valid UTF-8), `time.Duration` is an integer number of
nanoseconds, and `float64` is the model `Float64` below: finite binary64
values with round-to-nearest-even, which is all `Duration.Seconds`
produces.  A counter is kept as the natural number of its increments; the
library holds that number modulo `2 ^ 64` and exports it as a `float64`,
which is the value its sample carries.

Two refinements of this picture are used where a statement needs them: a
query name as the byte sequence a Go string is (`GoString`, with the UTF-8
validation of the library), and a memory of maps (`Heap`) in which a map
argument is a reference.
-/

namespace PostgresExporter

/-! ## Go maps as association lists -/

/-- Lookup of key `k`: the first entry with that key. -/
def Map.get {α : Type} : List (String × α) → String → Option α
  | [], _ => none
  | (k', v) :: rest, k => if k' = k then some v else Map.get rest k

/-- The assignment `m[k] = v`: overwrite the entry of `k`, or add one. -/
def Map.set {α : Type} : List (String × α) → String → α → List (String × α)
  | [], k, v => [(k, v)]
  | (k', v') :: rest, k, v =>
      if k' = k then (k, v) :: rest else (k', v') :: Map.set rest k v

/-- The keys of a map, in storage order. -/
def Map.keys {α : Type} (m : List (String × α)) : List String := m.map Prod.fst

/-- Well-formedness of a Go map: every key occurs once. -/
def Map.NodupKeys {α : Type} (m : List (String × α)) : Prop := (Map.keys m).Nodup

instance {α : Type} (m : List (String × α)) : Decidable (Map.NodupKeys m) :=
  inferInstanceAs (Decidable (List.Nodup _))

/-- The type `prometheus.Labels`, a `map[string]string`. -/
abbrev Labels := List (String × String)

/-! ## float64 and time.Duration -/

/-- A finite binary64 value `mant * 2 ^ expo`.  Zero is `⟨0, 0⟩`; every other
value is kept with a 53-bit significand, `2 ^ 52 ≤ |mant| < 2 ^ 53`. -/
structure Float64 where
  mant : Int
  expo : Int
deriving DecidableEq, Repr

namespace Float64

/-- The value `+0`. -/
def zero : Float64 := ⟨0, 0⟩

/-- Worker of `bitLen`, with the recursion bounded by its first argument. -/
def bitLenAux : Nat → Nat → Nat
  | 0, _ => 0
  | fuel + 1, n => if n = 0 then 0 else bitLenAux fuel (n / 2) + 1

/-- Number of binary digits of `n` (`0` for `0`). -/
def bitLen (n : Nat) : Nat := bitLenAux n n

/-- Rounding of the non-negative rational `n / d` to a 53-bit significand,
nearest value, ties to the even significand; `neg` gives the sign.  The
exponent is not bounded: the values met here are far from the subnormal and
overflow ranges of binary64. -/
def round (neg : Bool) (n d : Nat) : Float64 :=
  if n = 0 ∨ d = 0 then zero
  else
    let e0 : Int := (bitLen n : Int) - (bitLen d : Int) - 53
    let N : Nat := n * 2 ^ (-e0).toNat
    let D0 : Nat := d * 2 ^ e0.toNat
    let big : Bool := decide (2 ^ 53 * D0 ≤ N)
    let D : Nat := if big then 2 * D0 else D0
    let e1 : Int := if big then e0 + 1 else e0
    let q : Nat := N / D
    let r : Nat := N % D
    let m : Nat :=
      if 2 * r < D then q
      else if D < 2 * r then q + 1
      else if q % 2 = 0 then q else q + 1
    let m1 : Nat := if m = 2 ^ 53 then 2 ^ 52 else m
    let e2 : Int := if m = 2 ^ 53 then e1 + 1 else e1
    ⟨if neg then -(m1 : Int) else (m1 : Int), e2⟩

/-- The conversion `float64(i)` of an integer. -/
def ofInt (i : Int) : Float64 := round (decide (i < 0)) i.natAbs 1

/-- The decimal constant `n / d` written in Go source, as a `float64`. -/
def ofDecimal (n d : Nat) : Float64 := round false n d

/-- The quotient `a / b` of two values, `b` non-zero. -/
def div (a b : Float64) : Float64 :=
  round (decide (a.mant < 0) != decide (b.mant < 0))
    (a.mant.natAbs * 2 ^ (a.expo - b.expo).toNat)
    (b.mant.natAbs * 2 ^ (b.expo - a.expo).toNat)

/-- The sum `a + b`. -/
def add (a b : Float64) : Float64 :=
  let e : Int := min a.expo b.expo
  let s : Int := a.mant * 2 ^ (a.expo - e).toNat + b.mant * 2 ^ (b.expo - e).toNat
  round (decide (s < 0)) (s.natAbs * 2 ^ e.toNat) (2 ^ (-e).toNat)

/-- The rational number a value stands for. -/
def toRat (x : Float64) : Rat := (x.mant : Rat) * (2 : Rat) ^ x.expo

end Float64

/-- The type `time.Duration`: a count of nanoseconds. -/
abbrev Duration := Int

/-- The constant `time.Second`. -/
def Second : Duration := 1000000000

/-- The method `Duration.Seconds` of the Go standard library:
`sec := d / Second; nsec := d % Second; return float64(sec) + float64(nsec)/1e9`,
with Go's truncating integer division. -/
def Duration.Seconds (d : Duration) : Float64 :=
  let sec := Int.tdiv d Second
  let nsec := Int.tmod d Second
  Float64.add (Float64.ofInt sec) (Float64.div (Float64.ofInt nsec) (Float64.ofInt 1000000000))

/-! ## The Prometheus client library, as far as the file uses it -/

/-- A byte allowed in a label name: a letter, an underscore or, after the
first position, a digit. -/
def labelNameChar (first : Bool) (c : Char) : Bool :=
  c.isAlpha || c == '_' || (c.isDigit && !first)

/-- The check `model.LabelName.IsValid`. -/
def labelNameIsValid (l : String) : Bool :=
  match l.toList with
  | [] => false
  | c :: cs => labelNameChar true c && cs.all (labelNameChar false)

/-- The library's `checkLabelName`: a valid label name that does not start
with the reserved `__`. -/
def checkLabelName (l : String) : Bool :=
  labelNameIsValid l && !(List.isPrefixOf ['_', '_'] l.toList)

/-- The check `model.IsValidMetricName`: as for label names, colons allowed. -/
def isValidMetricName (n : String) : Bool :=
  match n.toList with
  | [] => false
  | c :: cs =>
      (labelNameChar true c || c == ':') &&
        cs.all (fun x => labelNameChar false x || x == ':')

/-- The function `prometheus.BuildFQName`. -/
def BuildFQName (nspace subsystem name : String) : String :=
  if name = "" then ""
  else if nspace ≠ "" ∧ subsystem ≠ "" then nspace ++ "_" ++ subsystem ++ "_" ++ name
  else if nspace ≠ "" then nspace ++ "_" ++ name
  else if subsystem ≠ "" then subsystem ++ "_" ++ name
  else name

/-- The descriptor `prometheus.Desc` of a metric family.  `constLabels` are
the constant label pairs the descriptor holds, `err` is the error `NewDesc`
records in it; the library reports it when the family is registered. -/
structure Desc where
  fqName : String
  help : String
  constLabels : Labels
  variableLabels : List String
  err : Option String
deriving DecidableEq, Repr

/-- The function `prometheus.NewDesc`: it never fails, an invalid definition
is recorded in the descriptor.  The name, the help text and the variable
labels are stored first; the function returns at the first error it finds,
and the constant label pairs are stored only after every check has passed,
so the descriptor of an invalid definition holds no constant label. -/
def NewDesc (fqName help : String) (variableLabels : List String) (constLabels : Labels) : Desc :=
  let err : Option String :=
    if !isValidMetricName fqName then some "not a valid metric name"
    else if !(Map.keys constLabels).all checkLabelName then some "not a valid label name"
    else if !variableLabels.all checkLabelName then some "not a valid label name"
    else if ¬ (Map.keys constLabels ++ variableLabels).Nodup then some "duplicate label names"
    else none
  { fqName := fqName, help := help,
    constLabels := (match err with
      | none => constLabels
      | some _ => []),
    variableLabels := variableLabels, err := err }

/-- The options `prometheus.GaugeOpts` / `prometheus.CounterOpts`. -/
structure Opts where
  Namespace : String
  Subsystem : String
  Name : String
  Help : String
  ConstLabels : Labels
deriving DecidableEq, Repr

/-- A metric vector with one variable label: the descriptor and the metrics
created so far, keyed by the value of the variable label. -/
structure MetricVec (α : Type) where
  desc : Desc
  metrics : List (String × α)
deriving DecidableEq, Repr

/-- The type `prometheus.GaugeVec`; a gauge holds a `float64`. -/
abbrev GaugeVec := MetricVec Float64

/-- The type `prometheus.CounterVec`.  A counter is kept as the number of
increments it has received; what the library stores and exports for it are
`Counter.valInt` and `Counter.exported` below. -/
abbrev CounterVec := MetricVec Nat

/-- The constructor `prometheus.NewGaugeVec`. -/
def NewGaugeVec (opts : Opts) (labelNames : List String) : GaugeVec :=
  { desc := NewDesc (BuildFQName opts.Namespace opts.Subsystem opts.Name) opts.Help
      labelNames opts.ConstLabels,
    metrics := [] }

/-- The constructor `prometheus.NewCounterVec`. -/
def NewCounterVec (opts : Opts) (labelNames : List String) : CounterVec :=
  { desc := NewDesc (BuildFQName opts.Namespace opts.Subsystem opts.Name) opts.Help
      labelNames opts.ConstLabels,
    metrics := [] }

/-- The part `WithLabelValues(lv)` of a call chain: the metric of label value
`lv` is created, at `zero`, when the vector has none. -/
def MetricVec.WithLabelValues {α : Type} (zero : α) (vec : MetricVec α) (lv : String) :
    MetricVec α :=
  match Map.get vec.metrics lv with
  | some _ => vec
  | none => { vec with metrics := vec.metrics ++ [(lv, zero)] }

/-- Application of a metric method `f` to the metric of label value `lv`. -/
def MetricVec.update {α : Type} (vec : MetricVec α) (lv : String) (f : α → α) : MetricVec α :=
  match Map.get vec.metrics lv with
  | some v => { vec with metrics := Map.set vec.metrics lv (f v) }
  | none => vec

/-- The method `Gauge.Set`. -/
def Gauge.Set (val : Float64) (_old : Float64) : Float64 := val

/-- The method `Counter.Inc`. -/
def Counter.Inc (c : Nat) : Nat := c + 1

/-- The method `Counter.Add` with a non-negative argument. -/
def Counter.Add (v : Nat) (c : Nat) : Nat := c + v

/-- The unsigned 64-bit integer the library holds for a counter that has
received `c` increments: the atomic addition wraps at `2 ^ 64`. -/
def Counter.valInt (c : Nat) : Nat := c % 2 ^ 64

/-- The value a counter exports in its sample: `float64(valInt)`. -/
def Counter.exported (c : Nat) : Float64 := Float64.ofInt (Counter.valInt c)

/-- The value of an exported sample, a `float64` for both kinds. -/
inductive SampleValue where
  | gauge (v : Float64)
  | counter (v : Float64)
deriving DecidableEq, Repr

/-- An exported sample (`prometheus.Metric`): the name of its family, its
label pairs (the variable label and the constant labels) and its value. -/
structure Sample where
  fqName : String
  labels : List (String × String)
  value : SampleValue
deriving DecidableEq, Repr

/-- The label pairs of the metric of label values `lvs` in a family. -/
def labelPairs (desc : Desc) (lvs : List String) : List (String × String) :=
  List.zip desc.variableLabels lvs ++ desc.constLabels

/-- The method `Collect` of a vector: one sample per stored metric is sent on
the channel, the vector itself is only read. -/
def MetricVec.Collect {α : Type} (mk : α → SampleValue) (vec : MetricVec α)
    (ch : List Sample) : MetricVec α × List Sample :=
  (vec, ch ++ vec.metrics.map (fun e =>
    { fqName := vec.desc.fqName, labels := labelPairs vec.desc [e.1], value := mk e.2 }))

/-! ## server_metrics.go -/

/-- ServerMetrics holds metrics about a Server. -/
structure ServerMetrics where
  MetricQueryDuration : GaugeVec
  MetricQueryErrorTotal : CounterVec
deriving DecidableEq, Repr

/-- NewServerMetrics creates a new ServerMetrics.  The package constants
`namespace` and `exporter` are declared in another file of the package and
are taken as the parameters `nspace` and `exporter`.  The second component
is the returned `error` (`none` for `nil`). -/
def NewServerMetrics (nspace exporter : String) (databaseName : String)
    (serverConstLabels : Labels) : ServerMetrics × Option String :=
  let constLabels : Labels :=
    serverConstLabels.foldl (fun acc kv => Map.set acc kv.1 kv.2) []
  let constLabels := Map.set constLabels "datname" databaseName
  let sm : ServerMetrics :=
    { MetricQueryDuration := NewGaugeVec
        { Namespace := nspace, Subsystem := exporter,
          Name := "metric_query_last_duration_seconds",
          Help := "Duration of the last metric query",
          ConstLabels := constLabels }
        ["query"],
      MetricQueryErrorTotal := NewCounterVec
        { Namespace := nspace, Subsystem := exporter,
          Name := "metric_query_errors_total",
          Help := "Number of metric query execution errors",
          ConstLabels := constLabels }
        ["query"] }
  (sm, none)

/-- Collect collects metrics for the Prometheus client: the samples of the
duration vector, then those of the error vector, are sent on `ch`. -/
def ServerMetrics.Collect (sm : ServerMetrics) (ch : List Sample) : ServerMetrics × List Sample :=
  let r1 := MetricVec.Collect SampleValue.gauge sm.MetricQueryDuration ch
  let r2 := MetricVec.Collect (fun c => SampleValue.counter (Counter.exported c))
    sm.MetricQueryErrorTotal r1.2
  ({ MetricQueryDuration := r1.1, MetricQueryErrorTotal := r2.1 }, r2.2)

/-- RecordMetricQueryExecution records the execution duration of a metric
query as well as whether the query failed or not (`queryErr` is `none` for a
`nil` error). -/
def ServerMetrics.RecordMetricQueryExecution (sm : ServerMetrics) (queryName : String)
    (duration : Duration) (queryErr : Option String) : ServerMetrics :=
  let sm : ServerMetrics :=
    { sm with MetricQueryDuration :=
        ((sm.MetricQueryDuration.WithLabelValues Float64.zero queryName).update queryName
          (Gauge.Set (Duration.Seconds duration))) }
  match queryErr with
  | some _ =>
      { sm with MetricQueryErrorTotal :=
          ((sm.MetricQueryErrorTotal.WithLabelValues 0 queryName).update queryName Counter.Inc) }
  | none =>
      { sm with MetricQueryErrorTotal :=
          ((sm.MetricQueryErrorTotal.WithLabelValues 0 queryName).update queryName
            (Counter.Add 0)) }

/-! ## Sequences of calls and observations -/

/-- One call of `RecordMetricQueryExecution`. -/
structure Call where
  queryName : String
  duration : Duration
  queryErr : Option String
deriving DecidableEq, Repr

/-- The calls of a sequence, applied in order. -/
def ServerMetrics.recordAll (sm : ServerMetrics) (calls : List Call) : ServerMetrics :=
  calls.foldl (fun s c => s.RecordMetricQueryExecution c.queryName c.duration c.queryErr) sm

/-- The entry of query `q` in the duration series. -/
def ServerMetrics.duration (sm : ServerMetrics) (q : String) : Option Float64 :=
  Map.get sm.MetricQueryDuration.metrics q

/-- The entry of query `q` in the error-count series. -/
def ServerMetrics.errorCount (sm : ServerMetrics) (q : String) : Option Nat :=
  Map.get sm.MetricQueryErrorTotal.metrics q

/-- The constant labels of a recorder, as carried by a family descriptor. -/
def ServerMetrics.constLabels (sm : ServerMetrics) : Labels :=
  sm.MetricQueryDuration.desc.constLabels

/-- The number of calls of a sequence for query `q` with a non-nil error. -/
def failures (calls : List Call) (q : String) : Nat :=
  calls.countP (fun c => decide (c.queryName = q) && c.queryErr.isSome)

/-- The samples a `Collect` sends on a channel that was empty. -/
def ServerMetrics.samples (sm : ServerMetrics) : List Sample := (sm.Collect []).2

/-- The error-count sample of query `q` for a count of `n`, as `Collect`
sends it. -/
def ServerMetrics.errorSample (sm : ServerMetrics) (q : String) (n : Nat) : Sample :=
  { fqName := sm.MetricQueryErrorTotal.desc.fqName,
    labels := labelPairs sm.MetricQueryErrorTotal.desc [q],
    value := SampleValue.counter (Counter.exported n) }

/-- The duration sample of query `q` with value `v`, as `Collect` sends it. -/
def ServerMetrics.durationSample (sm : ServerMetrics) (q : String) (v : Float64) : Sample :=
  { fqName := sm.MetricQueryDuration.desc.fqName,
    labels := labelPairs sm.MetricQueryDuration.desc [q],
    value := SampleValue.gauge v }

/-! ## Query names as Go strings -/

/-- A Go string: a sequence of bytes, which need not be valid UTF-8. -/
abbrev GoString := List (Fin 256)

/-- A continuation byte of UTF-8. -/
def utf8Cont (b : Nat) : Bool := decide (0x80 ≤ b) && decide (b ≤ 0xBF)

/-- The range `unicode/utf8` accepts for the second byte after first byte `b0`
of a three-byte or four-byte sequence. -/
def utf8Second (b0 b1 : Nat) : Bool :=
  if b0 = 0xE0 then decide (0xA0 ≤ b1) && decide (b1 ≤ 0xBF)
  else if b0 = 0xED then decide (0x80 ≤ b1) && decide (b1 ≤ 0x9F)
  else if b0 = 0xF0 then decide (0x90 ≤ b1) && decide (b1 ≤ 0xBF)
  else if b0 = 0xF4 then decide (0x80 ≤ b1) && decide (b1 ≤ 0x8F)
  else utf8Cont b1

/-- The first code point a byte sequence encodes in UTF-8 and the bytes that
follow its encoding, with the checks of Go's `unicode/utf8`; `none` when the
sequence does not start with a valid encoding. -/
def decodeRune : List Nat → Option (Nat × List Nat)
  | [] => none
  | b0 :: rest =>
    if b0 < 0x80 then some (b0, rest)
    else if 0xC2 ≤ b0 ∧ b0 ≤ 0xDF then
      match rest with
      | b1 :: rest1 =>
        if utf8Cont b1 then some ((b0 - 0xC0) * 64 + (b1 - 0x80), rest1) else none
      | [] => none
    else if 0xE0 ≤ b0 ∧ b0 ≤ 0xEF then
      match rest with
      | b1 :: b2 :: rest2 =>
        if utf8Second b0 b1 && utf8Cont b2 then
          some ((b0 - 0xE0) * 4096 + (b1 - 0x80) * 64 + (b2 - 0x80), rest2)
        else none
      | _ => none
    else if 0xF0 ≤ b0 ∧ b0 ≤ 0xF4 then
      match rest with
      | b1 :: b2 :: b3 :: rest3 =>
        if utf8Second b0 b1 && utf8Cont b2 && utf8Cont b3 then
          some ((b0 - 0xF0) * 262144 + (b1 - 0x80) * 4096 + (b2 - 0x80) * 64 + (b3 - 0x80),
            rest3)
        else none
      | _ => none
    else none

/-- Worker of `decodeUTF8`; the first argument bounds the number of
characters decoded. -/
def decodeUTF8Aux : Nat → List Nat → Option (List Char)
  | 0, s => if s = [] then some [] else none
  | fuel + 1, s =>
    if s = [] then some []
    else
      match decodeRune s with
      | none => none
      | some (n, rest) => (decodeUTF8Aux fuel rest).map (fun cs => Char.ofNat n :: cs)

/-- The characters a byte sequence encodes in UTF-8; `none` when
`utf8.ValidString` is false.  Every character takes at least one byte, so
the length of the sequence bounds the number of characters. -/
def decodeUTF8 (s : List Nat) : Option (List Char) := decodeUTF8Aux s.length s

/-- The UTF-8 encoding of a character. -/
def encodeRune (c : Char) : List Nat :=
  if c.toNat < 0x80 then [c.toNat]
  else if c.toNat < 0x800 then [0xC0 + c.toNat / 64, 0x80 + c.toNat % 64]
  else if c.toNat < 0x10000 then
    [0xE0 + c.toNat / 4096, 0x80 + c.toNat / 64 % 64, 0x80 + c.toNat % 64]
  else
    [0xF0 + c.toNat / 262144, 0x80 + c.toNat / 4096 % 64, 0x80 + c.toNat / 64 % 64,
      0x80 + c.toNat % 64]

/-- The UTF-8 encoding of a sequence of characters. -/
def encodeUTF8 (cs : List Char) : List Nat := cs.flatMap encodeRune

/-- The text of a Go string that is valid UTF-8, `none` for any other. -/
def GoString.text (s : GoString) : Option String :=
  (decodeUTF8 (s.map Fin.val)).map String.mk

/-- The check `utf8.ValidString`. -/
def GoString.valid (s : GoString) : Bool := s.text.isSome

/-- The Go string holding the UTF-8 encoding of a text. -/
def GoString.ofText (q : String) : GoString := (encodeUTF8 q.data).map (fun b => Fin.ofNat b)

/-- RecordMetricQueryExecution with the query name as the Go string it is.
The library validates the label value inside `WithLabelValues`, which panics
(here `Except.error`) when the value is not valid UTF-8; this happens in the
first statement, before anything is written.  On a valid name the call is
the one above, on the text of the name. -/
def ServerMetrics.RecordMetricQueryExecutionRaw (sm : ServerMetrics) (queryName : GoString)
    (duration : Duration) (queryErr : Option String) : Except String ServerMetrics :=
  match queryName.text with
  | none => Except.error "label value is not valid UTF-8"
  | some q => Except.ok (sm.RecordMetricQueryExecution q duration queryErr)

/-! ## Maps in memory -/

/-- A reference to a Go map: a map variable holds a reference, an assignment
or a call shares the map it designates. -/
abbrev MapRef := Nat

/-- The maps of the program's memory; reference `r` designates the map
allocated as number `r`. -/
abbrev Heap := List Labels

/-- The map a reference designates. -/
def Heap.read (h : Heap) (r : MapRef) : Labels := h.getD r []

/-- Replacement of the map a reference designates. -/
def Heap.write (h : Heap) (r : MapRef) (m : Labels) : Heap := h.set r m

/-- The allocation `make(prometheus.Labels)`: a new, empty map. -/
def Heap.make (h : Heap) : Heap × MapRef := (h ++ [[]], h.length)

/-- NewServerMetrics with its map argument as the reference it is: the
function allocates `constLabels`, copies the entries of the caller's map
into it one assignment at a time, assigns `constLabels["datname"]`, and
builds the two vectors from the options holding `constLabels`; the library
reads the labels out of the options while it builds a descriptor. -/
def NewServerMetricsOnHeap (nspace exporter : String) (h : Heap) (databaseName : String)
    (serverConstLabels : MapRef) : Heap × ServerMetrics × Option String :=
  let made := h.make
  let constLabels : MapRef := made.2
  let h1 : Heap :=
    (Heap.read made.1 serverConstLabels).foldl
      (fun hp kv => hp.write constLabels (Map.set (hp.read constLabels) kv.1 kv.2)) made.1
  let h2 : Heap := h1.write constLabels (Map.set (h1.read constLabels) "datname" databaseName)
  let sm : ServerMetrics :=
    { MetricQueryDuration := NewGaugeVec
        { Namespace := nspace, Subsystem := exporter,
          Name := "metric_query_last_duration_seconds",
          Help := "Duration of the last metric query",
          ConstLabels := h2.read constLabels }
        ["query"],
      MetricQueryErrorTotal := NewCounterVec
        { Namespace := nspace, Subsystem := exporter,
          Name := "metric_query_errors_total",
          Help := "Number of metric query execution errors",
          ConstLabels := h2.read constLabels }
        ["query"] }
  (h2, sm, none)

/-! ## Observations on samples and values -/

/-- The value of the label "query" of a sample. -/
def Sample.query (s : Sample) : Option String := Map.get s.labels "query"

/-- Whether a sample value is that of a gauge. -/
def SampleValue.isGauge : SampleValue → Bool
  | SampleValue.gauge _ => true
  | SampleValue.counter _ => false

/-- Whether a sample value is that of a counter. -/
def SampleValue.isCounter : SampleValue → Bool
  | SampleValue.gauge _ => false
  | SampleValue.counter _ => true

/-- The number of duration samples for query `q` among `samples`. -/
def durationSamplesOf (samples : List Sample) (q : String) : Nat :=
  samples.countP (fun s => s.value.isGauge && decide (s.query = some q))

/-- The number of error-count samples for query `q` among `samples`. -/
def errorSamplesOf (samples : List Sample) (q : String) : Nat :=
  samples.countP (fun s => s.value.isCounter && decide (s.query = some q))

/-- The calls of a sequence that are for query `q`. -/
def callsFor (calls : List Call) (q : String) : List Call :=
  calls.filter (fun c => decide (c.queryName = q))

/-- The negation of a `float64`. -/
def Float64.neg (x : Float64) : Float64 := ⟨-x.mant, x.expo⟩

/-- The recorder of "db1" in the state where query "q" has failed `n` times
and its last execution took one second. -/
def recorderWithCount (n : Nat) : ServerMetrics :=
  { MetricQueryDuration :=
      { (NewServerMetrics "pg" "exporter" "db1" []).1.MetricQueryDuration with
        metrics := [("q", Duration.Seconds 1000000000)] },
    MetricQueryErrorTotal :=
      { (NewServerMetrics "pg" "exporter" "db1" []).1.MetricQueryErrorTotal with
        metrics := [("q", n)] } }

/-! ## Lemmas on maps -/

theorem Map.get_set_self {α : Type} (m : List (String × α)) (k : String) (v : α) :
    Map.get (Map.set m k v) k = some v := by
  induction m with
  | nil => simp [Map.set, Map.get]
  | cons e rest ih =>
    obtain ⟨k', v'⟩ := e
    by_cases h : k' = k
    · simp [Map.set, Map.get, h]
    · simp [Map.set, Map.get, h, ih]

theorem Map.get_set_ne {α : Type} (m : List (String × α)) (k k' : String) (v : α)
    (hne : k' ≠ k) : Map.get (Map.set m k v) k' = Map.get m k' := by
  induction m with
  | nil => simp [Map.set, Map.get, Ne.symm hne]
  | cons e rest ih =>
    obtain ⟨k1, v1⟩ := e
    by_cases h : k1 = k
    · subst h
      simp [Map.set, Map.get, Ne.symm hne]
    · by_cases h' : k1 = k'
      · subst h'
        simp [Map.set, Map.get, h]
      · simp [Map.set, Map.get, h, h', ih]

theorem Map.get_append_single {α : Type} (m : List (String × α)) (k k' : String) (v : α) :
    Map.get (m ++ [(k, v)]) k' =
      match Map.get m k' with
      | some x => some x
      | none => if k = k' then some v else none := by
  induction m with
  | nil => simp [Map.get]
  | cons e rest ih =>
    obtain ⟨k1, v1⟩ := e
    by_cases h : k1 = k'
    · simp [Map.get, h]
    · simp [Map.get, h, ih]

theorem Map.get_eq_none_iff {α : Type} (m : List (String × α)) (k : String) :
    Map.get m k = none ↔ k ∉ Map.keys m := by
  induction m with
  | nil => simp [Map.get, Map.keys]
  | cons e rest ih =>
    obtain ⟨k1, v1⟩ := e
    by_cases h : k1 = k
    · simp [Map.get, Map.keys, h]
    · have h' : ¬ k = k1 := fun e => h e.symm
      simp [Map.get, h, h', ih, Map.keys] at *

theorem Map.mem_of_get {α : Type} (m : List (String × α)) (k : String) (v : α)
    (h : Map.get m k = some v) : (k, v) ∈ m := by
  induction m with
  | nil => simp [Map.get] at h
  | cons e rest ih =>
    obtain ⟨k1, v1⟩ := e
    by_cases hk : k1 = k
    · simp [Map.get, hk] at h
      simp [hk, h]
    · simp [Map.get, hk] at h
      exact List.mem_cons_of_mem _ (ih h)

theorem Map.get_of_mem {α : Type} (m : List (String × α)) (k : String) (v : α)
    (hnd : Map.NodupKeys m) (h : (k, v) ∈ m) : Map.get m k = some v := by
  induction m with
  | nil => simp at h
  | cons e rest ih =>
    obtain ⟨k1, v1⟩ := e
    simp only [Map.NodupKeys, Map.keys, List.map_cons, List.nodup_cons] at hnd
    rcases List.mem_cons.1 h with heq | hin
    · cases heq
      simp [Map.get]
    · have hk : k1 ≠ k := by
        intro e
        apply hnd.1
        rw [e]
        exact List.mem_map.2 ⟨(k, v), hin, rfl⟩
      simp only [Map.get, hk, if_false]
      exact ih hnd.2 hin

theorem Map.keys_set {α : Type} (m : List (String × α)) (k : String) (v : α) :
    Map.keys (Map.set m k v) = if k ∈ Map.keys m then Map.keys m else Map.keys m ++ [k] := by
  induction m with
  | nil => simp [Map.set, Map.keys]
  | cons e rest ih =>
    obtain ⟨k1, v1⟩ := e
    by_cases h : k1 = k
    · simp [Map.set, Map.keys, h]
    · have h' : ¬ k = k1 := fun e => h e.symm
      simp only [Map.keys] at ih
      by_cases hin : k ∈ List.map Prod.fst rest
      · simp [Map.set, Map.keys, h, h', ih, hin]
      · simp [Map.set, Map.keys, h, h', ih, hin]

theorem Map.nodupKeys_set {α : Type} (m : List (String × α)) (k : String) (v : α)
    (hnd : Map.NodupKeys m) : Map.NodupKeys (Map.set m k v) := by
  unfold Map.NodupKeys at *
  rw [Map.keys_set]
  by_cases hin : k ∈ Map.keys m
  · simpa [hin] using hnd
  · simp only [hin, if_false]
    exact List.Nodup.append hnd (List.nodup_singleton k) (by simpa using hin)

/-! ## Lemmas on metric vectors and on one call -/

theorem MetricVec.get_touch {α : Type} (zero : α) (vec : MetricVec α) (lv k : String)
    (f : α → α) :
    Map.get ((vec.WithLabelValues zero lv).update lv f).metrics k =
      if k = lv then some (f ((Map.get vec.metrics lv).getD zero)) else Map.get vec.metrics k := by
  cases hget : Map.get vec.metrics lv with
  | some v =>
    simp only [MetricVec.WithLabelValues, MetricVec.update, hget, Option.getD_some]
    by_cases hk : k = lv
    · subst hk
      simp [Map.get_set_self]
    · simp [hk, Map.get_set_ne _ _ _ _ hk]
  | none =>
    have hnew : Map.get (vec.metrics ++ [(lv, zero)]) lv = some zero := by
      rw [Map.get_append_single, hget]
      simp
    simp only [MetricVec.WithLabelValues, MetricVec.update, hget, hnew, Option.getD_none]
    by_cases hk : k = lv
    · subst hk
      simp [Map.get_set_self]
    · have hk' : ¬ lv = k := fun e => hk e.symm
      rw [Map.get_set_ne _ _ _ _ hk, Map.get_append_single]
      cases Map.get vec.metrics k <;> simp [hk, hk']

theorem MetricVec.desc_touch {α : Type} (zero : α) (vec : MetricVec α) (lv : String)
    (f : α → α) : ((vec.WithLabelValues zero lv).update lv f).desc = vec.desc := by
  unfold MetricVec.WithLabelValues
  cases Map.get vec.metrics lv with
  | some v =>
    simp only [MetricVec.update]
    split <;> rfl
  | none =>
    simp only [MetricVec.update]
    split <;> rfl

theorem MetricVec.keys_touch {α : Type} (zero : α) (vec : MetricVec α) (lv : String)
    (f : α → α) :
    Map.keys ((vec.WithLabelValues zero lv).update lv f).metrics =
      if lv ∈ Map.keys vec.metrics then Map.keys vec.metrics
      else Map.keys vec.metrics ++ [lv] := by
  cases hget : Map.get vec.metrics lv with
  | some v =>
    have hin : lv ∈ Map.keys vec.metrics := by
      by_contra hc
      rw [(Map.get_eq_none_iff _ _).2 hc] at hget
      cases hget
    simp [MetricVec.WithLabelValues, MetricVec.update, hget, Map.keys_set, hin]
  | none =>
    have hnin : lv ∉ Map.keys vec.metrics := (Map.get_eq_none_iff _ _).1 hget
    have hnew : Map.get (vec.metrics ++ [(lv, zero)]) lv = some zero := by
      rw [Map.get_append_single, hget]
      simp
    simp [MetricVec.WithLabelValues, MetricVec.update, hget, hnew, Map.keys_set, hnin]
    simp [Map.keys]

theorem errorCount_record (sm : ServerMetrics) (q : String) (d : Duration)
    (e : Option String) (k : String) :
    (sm.RecordMetricQueryExecution q d e).errorCount k =
      if k = q then some ((sm.errorCount q).getD 0 + (if e.isSome then 1 else 0))
      else sm.errorCount k := by
  cases e with
  | some msg =>
    simp only [ServerMetrics.RecordMetricQueryExecution, ServerMetrics.errorCount,
      MetricVec.get_touch, Counter.Inc]
    simp
  | none =>
    simp only [ServerMetrics.RecordMetricQueryExecution, ServerMetrics.errorCount,
      MetricVec.get_touch, Counter.Add]
    simp

theorem duration_record (sm : ServerMetrics) (q : String) (d : Duration)
    (e : Option String) (k : String) :
    (sm.RecordMetricQueryExecution q d e).duration k =
      if k = q then some (Duration.Seconds d) else sm.duration k := by
  cases e <;>
    simp only [ServerMetrics.RecordMetricQueryExecution, ServerMetrics.duration,
      MetricVec.get_touch, Gauge.Set]

theorem recordAll_cons (sm : ServerMetrics) (c : Call) (calls : List Call) :
    sm.recordAll (c :: calls) =
      (sm.RecordMetricQueryExecution c.queryName c.duration c.queryErr).recordAll calls := rfl

theorem recordAll_append (sm : ServerMetrics) (xs ys : List Call) :
    sm.recordAll (xs ++ ys) = (sm.recordAll xs).recordAll ys := by
  simp [ServerMetrics.recordAll, List.foldl_append]

theorem failures_cons (c : Call) (rest : List Call) (q : String) :
    failures (c :: rest) q =
      failures rest q + (if c.queryName = q ∧ c.queryErr.isSome then 1 else 0) := by
  unfold failures
  rw [List.countP_cons]
  by_cases h1 : c.queryName = q <;> cases he : c.queryErr <;> simp [h1]

theorem failures_of_not_mem (calls : List Call) (q : String)
    (h : q ∉ calls.map Call.queryName) : failures calls q = 0 := by
  unfold failures
  rw [List.countP_eq_zero]
  intro c hc
  have hne : c.queryName ≠ q := fun e => h (List.mem_map.2 ⟨c, hc, e⟩)
  simp [hne]

theorem errorCount_recordAll (calls : List Call) (sm : ServerMetrics) (q : String) :
    (sm.recordAll calls).errorCount q =
      if q ∈ calls.map Call.queryName then some ((sm.errorCount q).getD 0 + failures calls q)
      else sm.errorCount q := by
  induction calls generalizing sm with
  | nil => simp [ServerMetrics.recordAll]
  | cons c rest ih =>
    rw [recordAll_cons, ih, errorCount_record, failures_cons]
    by_cases hq : q = c.queryName
    · subst hq
      by_cases hin : c.queryName ∈ rest.map Call.queryName
      · simp only [hin, if_true, Option.getD_some, List.map_cons, List.mem_cons, true_or,
          true_and, Option.some.injEq]
        omega
      · simp only [hin, if_false, if_true, List.map_cons, List.mem_cons, true_or, true_and,
          Option.some.injEq, failures_of_not_mem rest _ hin]
        omega
    · have hq' : ¬ c.queryName = q := fun e => hq e.symm
      simp [hq, hq']

theorem duration_recordAll_not_mem (calls : List Call) (sm : ServerMetrics) (q : String)
    (h : ∀ c ∈ calls, c.queryName ≠ q) : (sm.recordAll calls).duration q = sm.duration q := by
  induction calls generalizing sm with
  | nil => rfl
  | cons c rest ih =>
    rw [recordAll_cons, ih _ (fun c' hc' => h c' (List.mem_cons_of_mem _ hc')), duration_record]
    have hne : ¬ q = c.queryName := fun e => h c (List.mem_cons_self _ _) e.symm
    simp [hne]

theorem exists_last_call (calls : List Call) (q : String)
    (hq : q ∈ calls.map Call.queryName) :
    ∃ pre c post, calls = pre ++ c :: post ∧ c.queryName = q ∧
      ∀ c' ∈ post, c'.queryName ≠ q := by
  induction calls with
  | nil => simp at hq
  | cons c rest ih =>
    by_cases hin : q ∈ rest.map Call.queryName
    · obtain ⟨pre, c0, post, hdec, hc0, hpost⟩ := ih hin
      exact ⟨c :: pre, c0, post, by simp [hdec], hc0, hpost⟩
    · have hc : c.queryName = q := by
        simp only [List.map_cons, List.mem_cons] at hq
        rcases hq with h | h
        · exact h.symm
        · exact absurd h hin
      refine ⟨[], c, rest, rfl, hc, ?_⟩
      intro c' hc' e
      exact hin (List.mem_map.2 ⟨c', hc', e⟩)

theorem newServerMetrics_errorCount (nspace exporter t : String) (M : Labels) (q : String) :
    (NewServerMetrics nspace exporter t M).1.errorCount q = none := rfl

theorem newServerMetrics_duration (nspace exporter t : String) (M : Labels) (q : String) :
    (NewServerMetrics nspace exporter t M).1.duration q = none := rfl

/-! ## Lemmas on Collect, on descriptors and on the constant labels -/

theorem samples_eq (sm : ServerMetrics) :
    sm.samples =
      sm.MetricQueryDuration.metrics.map (fun e =>
        { fqName := sm.MetricQueryDuration.desc.fqName,
          labels := labelPairs sm.MetricQueryDuration.desc [e.1],
          value := SampleValue.gauge e.2 }) ++
      sm.MetricQueryErrorTotal.metrics.map (fun e =>
        { fqName := sm.MetricQueryErrorTotal.desc.fqName,
          labels := labelPairs sm.MetricQueryErrorTotal.desc [e.1],
          value := SampleValue.counter (Counter.exported e.2) }) := by
  simp [ServerMetrics.samples, ServerMetrics.Collect, MetricVec.Collect]

theorem collect_eq (sm : ServerMetrics) (ch : List Sample) :
    sm.Collect ch = (sm, ch ++ sm.samples) := by
  simp [ServerMetrics.samples, ServerMetrics.Collect, MetricVec.Collect]

theorem record_desc (sm : ServerMetrics) (q : String) (d : Duration) (e : Option String) :
    (sm.RecordMetricQueryExecution q d e).MetricQueryDuration.desc =
        sm.MetricQueryDuration.desc ∧
      (sm.RecordMetricQueryExecution q d e).MetricQueryErrorTotal.desc =
        sm.MetricQueryErrorTotal.desc := by
  cases e <;>
    simp only [ServerMetrics.RecordMetricQueryExecution, MetricVec.desc_touch, and_self]

theorem recordAll_desc (calls : List Call) (sm : ServerMetrics) :
    (sm.recordAll calls).MetricQueryDuration.desc = sm.MetricQueryDuration.desc ∧
      (sm.recordAll calls).MetricQueryErrorTotal.desc = sm.MetricQueryErrorTotal.desc := by
  induction calls generalizing sm with
  | nil => exact ⟨rfl, rfl⟩
  | cons c rest ih =>
    rw [recordAll_cons]
    obtain ⟨h1, h2⟩ := ih (sm.RecordMetricQueryExecution c.queryName c.duration c.queryErr)
    obtain ⟨g1, g2⟩ := record_desc sm c.queryName c.duration c.queryErr
    exact ⟨h1.trans g1, h2.trans g2⟩

theorem MetricVec.nodupKeys_touch {α : Type} (zero : α) (vec : MetricVec α) (lv : String)
    (f : α → α) (hnd : Map.NodupKeys vec.metrics) :
    Map.NodupKeys ((vec.WithLabelValues zero lv).update lv f).metrics := by
  unfold Map.NodupKeys at *
  rw [MetricVec.keys_touch]
  by_cases hin : lv ∈ Map.keys vec.metrics
  · simpa [hin] using hnd
  · simp only [hin, if_false]
    exact List.Nodup.append hnd (List.nodup_singleton lv) (by simpa using hin)

theorem record_nodupKeys (sm : ServerMetrics) (q : String) (d : Duration) (e : Option String)
    (h1 : Map.NodupKeys sm.MetricQueryDuration.metrics)
    (h2 : Map.NodupKeys sm.MetricQueryErrorTotal.metrics) :
    Map.NodupKeys (sm.RecordMetricQueryExecution q d e).MetricQueryDuration.metrics ∧
      Map.NodupKeys (sm.RecordMetricQueryExecution q d e).MetricQueryErrorTotal.metrics := by
  cases e with
  | some msg =>
    exact ⟨MetricVec.nodupKeys_touch _ _ _ _ h1, MetricVec.nodupKeys_touch _ _ _ _ h2⟩
  | none =>
    exact ⟨MetricVec.nodupKeys_touch _ _ _ _ h1, MetricVec.nodupKeys_touch _ _ _ _ h2⟩

theorem recordAll_nodupKeys (calls : List Call) (sm : ServerMetrics)
    (h1 : Map.NodupKeys sm.MetricQueryDuration.metrics)
    (h2 : Map.NodupKeys sm.MetricQueryErrorTotal.metrics) :
    Map.NodupKeys (sm.recordAll calls).MetricQueryDuration.metrics ∧
      Map.NodupKeys (sm.recordAll calls).MetricQueryErrorTotal.metrics := by
  induction calls generalizing sm with
  | nil => exact ⟨h1, h2⟩
  | cons c rest ih =>
    rw [recordAll_cons]
    obtain ⟨g1, g2⟩ := record_nodupKeys sm c.queryName c.duration c.queryErr h1 h2
    exact ih _ g1 g2

theorem get_foldl_set (M : Labels) (acc : Labels) (k : String) (hM : Map.NodupKeys M) :
    Map.get (M.foldl (fun a kv => Map.set a kv.1 kv.2) acc) k =
      match Map.get M k with
      | some v => some v
      | none => Map.get acc k := by
  induction M generalizing acc with
  | nil => simp [Map.get]
  | cons e rest ih =>
    obtain ⟨k1, v1⟩ := e
    simp only [Map.NodupKeys, Map.keys, List.map_cons, List.nodup_cons] at hM
    rw [List.foldl_cons, ih _ hM.2]
    by_cases hk : k1 = k
    · subst hk
      have hnone : Map.get rest k1 = none := (Map.get_eq_none_iff _ _).2 hM.1
      simp [hnone, Map.get, Map.get_set_self]
    · have hk' : k ≠ k1 := fun e => hk e.symm
      simp only [Map.get, hk, if_false, Map.get_set_ne _ _ _ _ hk']

theorem nodupKeys_foldl_set (M : Labels) (acc : Labels) (hacc : Map.NodupKeys acc) :
    Map.NodupKeys (M.foldl (fun a kv => Map.set a kv.1 kv.2) acc) := by
  induction M generalizing acc with
  | nil => exact hacc
  | cons e rest ih => exact ih _ (Map.nodupKeys_set _ _ _ hacc)

theorem NewDesc_err_eq_none_iff (fqName help : String) (vl : List String) (cl : Labels) :
    (NewDesc fqName help vl cl).err = none ↔
      isValidMetricName fqName = true ∧ (Map.keys cl).all checkLabelName = true ∧
        vl.all checkLabelName = true ∧ (Map.keys cl ++ vl).Nodup := by
  simp only [NewDesc]
  cases isValidMetricName fqName <;> cases (Map.keys cl).all checkLabelName <;>
    cases vl.all checkLabelName <;> by_cases h4 : (Map.keys cl ++ vl).Nodup <;> simp [h4]

theorem NewDesc_constLabels_of_valid (fqName help : String) (vl : List String) (cl : Labels)
    (h : (NewDesc fqName help vl cl).err = none) :
    (NewDesc fqName help vl cl).constLabels = cl := by
  simp only [NewDesc] at h ⊢
  rw [h]

theorem NewDesc_constLabels_of_invalid (fqName help : String) (vl : List String) (cl : Labels)
    (h : (NewDesc fqName help vl cl).err ≠ none) :
    (NewDesc fqName help vl cl).constLabels = [] := by
  simp only [NewDesc] at h ⊢
  split
  · rename_i heq
    exact absurd heq h
  · rfl

theorem newServerMetrics_constLabels (nspace exporter t : String) (M : Labels)
    (hv : (NewServerMetrics nspace exporter t M).1.MetricQueryDuration.desc.err = none) :
    (NewServerMetrics nspace exporter t M).1.constLabels =
      Map.set (M.foldl (fun a kv => Map.set a kv.1 kv.2) []) "datname" t :=
  NewDesc_constLabels_of_valid _ _ _ _ hv

theorem newServerMetrics_errorLabels (nspace exporter t : String) (M : Labels)
    (hv : (NewServerMetrics nspace exporter t M).1.MetricQueryErrorTotal.desc.err = none) :
    (NewServerMetrics nspace exporter t M).1.MetricQueryErrorTotal.desc.constLabels =
      Map.set (M.foldl (fun a kv => Map.set a kv.1 kv.2) []) "datname" t :=
  NewDesc_constLabels_of_valid _ _ _ _ hv

theorem get_copied_labels (t : String) (M : Labels) (hM : Map.NodupKeys M) (k : String) :
    Map.get (Map.set (M.foldl (fun a kv => Map.set a kv.1 kv.2) []) "datname" t) k =
      if k = "datname" then some t else Map.get M k := by
  by_cases hk : k = "datname"
  · subst hk
    simp [Map.get_set_self]
  · rw [Map.get_set_ne _ _ _ _ hk, get_foldl_set _ _ _ hM]
    cases Map.get M k <;> simp [hk, Map.get]

theorem get_constLabels (nspace exporter t : String) (M : Labels) (hM : Map.NodupKeys M)
    (hv : (NewServerMetrics nspace exporter t M).1.MetricQueryDuration.desc.err = none)
    (k : String) :
    Map.get (NewServerMetrics nspace exporter t M).1.constLabels k =
      if k = "datname" then some t else Map.get M k := by
  rw [newServerMetrics_constLabels nspace exporter t M hv]
  exact get_copied_labels t M hM k

theorem errorSample_mem (sm : ServerMetrics) (q : String) (n : Nat)
    (h : sm.errorCount q = some n) : sm.errorSample q n ∈ sm.samples := by
  rw [samples_eq]
  apply List.mem_append_right
  exact List.mem_map.2 ⟨(q, n), Map.mem_of_get _ _ _ h, rfl⟩

theorem durationSample_mem (sm : ServerMetrics) (q : String) (v : Float64)
    (h : sm.duration q = some v) : sm.durationSample q v ∈ sm.samples := by
  rw [samples_eq]
  apply List.mem_append_left
  exact List.mem_map.2 ⟨(q, v), Map.mem_of_get _ _ _ h, rfl⟩

theorem record_keys (sm : ServerMetrics) (q : String) (d : Duration) (e : Option String) :
    Map.keys (sm.RecordMetricQueryExecution q d e).MetricQueryDuration.metrics =
        (if q ∈ Map.keys sm.MetricQueryDuration.metrics then
          Map.keys sm.MetricQueryDuration.metrics
        else Map.keys sm.MetricQueryDuration.metrics ++ [q]) ∧
      Map.keys (sm.RecordMetricQueryExecution q d e).MetricQueryErrorTotal.metrics =
        (if q ∈ Map.keys sm.MetricQueryErrorTotal.metrics then
          Map.keys sm.MetricQueryErrorTotal.metrics
        else Map.keys sm.MetricQueryErrorTotal.metrics ++ [q]) := by
  cases e <;>
    exact ⟨MetricVec.keys_touch _ _ _ _, MetricVec.keys_touch _ _ _ _⟩

/-! ## Lemmas on maps in memory -/

theorem Heap.read_append_length (h : Heap) (acc : Labels) :
    Heap.read (h ++ [acc]) h.length = acc := by
  simp [Heap.read, List.getD_eq_getElem?_getD]

theorem Heap.read_append_lt (h : Heap) (acc : Labels) (r : MapRef) (hr : r < h.length) :
    Heap.read (h ++ [acc]) r = Heap.read h r := by
  simp [Heap.read, List.getD_eq_getElem?_getD, List.getElem?_append_left hr]

theorem Heap.write_append_length (h : Heap) (acc x : Labels) :
    Heap.write (h ++ [acc]) h.length x = h ++ [x] := by
  simp [Heap.write, List.set_append]

theorem Heap.read_write_ne (h : Heap) (r r' : MapRef) (m : Labels) (hne : r' ≠ r) :
    Heap.read (Heap.write h r m) r' = Heap.read h r' := by
  simp [Heap.read, Heap.write, List.getD_eq_getElem?_getD, List.getElem?_set, Ne.symm hne]

theorem foldl_copy_on_heap (entries : Labels) (h : Heap) (acc : Labels) :
    entries.foldl
        (fun hp kv => Heap.write hp h.length (Map.set (Heap.read hp h.length) kv.1 kv.2))
        (h ++ [acc]) =
      h ++ [entries.foldl (fun a kv => Map.set a kv.1 kv.2) acc] := by
  induction entries generalizing acc with
  | nil => rfl
  | cons e rest ih =>
    rw [List.foldl_cons, Heap.read_append_length, Heap.write_append_length, ih, List.foldl_cons]

theorem newServerMetricsOnHeap_eq (nspace exporter : String) (h : Heap) (t : String)
    (M : MapRef) (hM : M < h.length) :
    NewServerMetricsOnHeap nspace exporter h t M =
      (h ++ [Map.set ((Heap.read h M).foldl (fun a kv => Map.set a kv.1 kv.2) []) "datname" t],
        (NewServerMetrics nspace exporter t (Heap.read h M)).1, none) := by
  simp only [NewServerMetricsOnHeap, Heap.make, Heap.read_append_lt h [] M hM,
    foldl_copy_on_heap, Heap.read_append_length, Heap.write_append_length, NewServerMetrics]

/-! ## Lemmas on the frame of a call and on the recorded names -/

theorem recordAll_callsFor (calls : List Call) (sm sm' : ServerMetrics) (p : String)
    (hd : sm.duration p = sm'.duration p) (he : sm.errorCount p = sm'.errorCount p) :
    (sm.recordAll calls).duration p = (sm'.recordAll (callsFor calls p)).duration p ∧
      (sm.recordAll calls).errorCount p = (sm'.recordAll (callsFor calls p)).errorCount p := by
  induction calls generalizing sm sm' with
  | nil => exact ⟨hd, he⟩
  | cons c rest ih =>
    by_cases hc : c.queryName = p
    · have hf : callsFor (c :: rest) p = c :: callsFor rest p := by
        simp [callsFor, hc]
      rw [hf, recordAll_cons, recordAll_cons]
      apply ih
      · rw [duration_record, duration_record]
        simp [hc]
      · rw [errorCount_record, errorCount_record]
        simp [hc, he]
    · have hf : callsFor (c :: rest) p = callsFor rest p := by
        simp [callsFor, hc]
      have hp : ¬ p = c.queryName := fun x => hc x.symm
      rw [hf, recordAll_cons]
      apply ih
      · rw [duration_record]
        simp [hp, hd]
      · rw [errorCount_record]
        simp [hp, he]

theorem recordAll_keys (calls : List Call) (sm : ServerMetrics)
    (hk : Map.keys sm.MetricQueryDuration.metrics = Map.keys sm.MetricQueryErrorTotal.metrics) :
    Map.keys (sm.recordAll calls).MetricQueryDuration.metrics =
        Map.keys (sm.recordAll calls).MetricQueryErrorTotal.metrics ∧
      ∀ q, q ∈ Map.keys (sm.recordAll calls).MetricQueryDuration.metrics ↔
        q ∈ Map.keys sm.MetricQueryDuration.metrics ∨ q ∈ calls.map Call.queryName := by
  induction calls generalizing sm with
  | nil => exact ⟨hk, fun q => by simp [ServerMetrics.recordAll]⟩
  | cons c rest ih =>
    obtain ⟨h1, h2⟩ := record_keys sm c.queryName c.duration c.queryErr
    have hk' : Map.keys (sm.RecordMetricQueryExecution c.queryName c.duration
        c.queryErr).MetricQueryDuration.metrics =
        Map.keys (sm.RecordMetricQueryExecution c.queryName c.duration
          c.queryErr).MetricQueryErrorTotal.metrics := by
      rw [h1, h2, hk]
    obtain ⟨g1, g2⟩ := ih _ hk'
    rw [recordAll_cons]
    refine ⟨g1, fun q => ?_⟩
    rw [g2 q, h1]
    by_cases hin : c.queryName ∈ Map.keys sm.MetricQueryDuration.metrics
    · simp only [hin, if_true, List.map_cons, List.mem_cons]
      constructor
      · rintro (h | h)
        · exact Or.inl h
        · exact Or.inr (Or.inr h)
      · rintro (h | h | h)
        · exact Or.inl h
        · exact Or.inl (h ▸ hin)
        · exact Or.inr h
    · simp only [hin, if_false, List.mem_append, List.mem_singleton, List.map_cons,
        List.mem_cons]
      tauto

theorem countP_key_eq {α : Type} (m : List (String × α)) (q : String)
    (hnd : Map.NodupKeys m) :
    m.countP (fun e => decide (e.1 = q)) = if q ∈ Map.keys m then 1 else 0 := by
  induction m with
  | nil => simp [Map.keys]
  | cons e rest ih =>
    obtain ⟨k1, v1⟩ := e
    simp only [Map.NodupKeys, Map.keys, List.map_cons, List.nodup_cons] at hnd
    have ih' := ih hnd.2
    simp only [Map.keys] at ih'
    rw [List.countP_cons, ih']
    by_cases hk : k1 = q
    · subst hk
      simp [Map.keys, hnd.1]
    · have hk' : ¬ q = k1 := fun x => hk x.symm
      by_cases hin : q ∈ List.map Prod.fst rest <;> simp [Map.keys, hk, hk', hin]

theorem query_labelPairs (desc : Desc) (k : String) (hv : desc.variableLabels = ["query"]) :
    Map.get (labelPairs desc [k]) "query" = some k := by
  simp [labelPairs, hv, Map.get]

theorem durationSamplesOf_samples (sm : ServerMetrics) (q : String)
    (hv : sm.MetricQueryDuration.desc.variableLabels = ["query"])
    (hnd : Map.NodupKeys sm.MetricQueryDuration.metrics) :
    durationSamplesOf sm.samples q =
      if q ∈ Map.keys sm.MetricQueryDuration.metrics then 1 else 0 := by
  rw [samples_eq, durationSamplesOf, List.countP_append, List.countP_map, List.countP_map,
    ← countP_key_eq _ q hnd]
  have h2 : List.countP ((fun s : Sample => s.value.isGauge && decide (s.query = some q)) ∘
      fun e : String × Nat =>
        { fqName := sm.MetricQueryErrorTotal.desc.fqName,
          labels := labelPairs sm.MetricQueryErrorTotal.desc [e.1],
          value := SampleValue.counter (Counter.exported e.2) }) sm.MetricQueryErrorTotal.metrics = 0 := by
    rw [List.countP_eq_zero]
    intro e _
    simp [SampleValue.isGauge]
  rw [h2, Nat.add_zero]
  apply List.countP_congr
  intro e _
  simp [SampleValue.isGauge, Sample.query, query_labelPairs _ _ hv]

theorem errorSamplesOf_samples (sm : ServerMetrics) (q : String)
    (hv : sm.MetricQueryErrorTotal.desc.variableLabels = ["query"])
    (hnd : Map.NodupKeys sm.MetricQueryErrorTotal.metrics) :
    errorSamplesOf sm.samples q =
      if q ∈ Map.keys sm.MetricQueryErrorTotal.metrics then 1 else 0 := by
  rw [samples_eq, errorSamplesOf, List.countP_append, List.countP_map, List.countP_map,
    ← countP_key_eq _ q hnd]
  have h1 : List.countP ((fun s : Sample => s.value.isCounter && decide (s.query = some q)) ∘
      fun e : String × Float64 =>
        { fqName := sm.MetricQueryDuration.desc.fqName,
          labels := labelPairs sm.MetricQueryDuration.desc [e.1],
          value := SampleValue.gauge e.2 }) sm.MetricQueryDuration.metrics = 0 := by
    rw [List.countP_eq_zero]
    intro e _
    simp [SampleValue.isCounter]
  rw [h1, Nat.zero_add]
  apply List.countP_congr
  intro e _
  simp [SampleValue.isCounter, Sample.query, query_labelPairs _ _ hv]

theorem length_keys_eq_dedup (keys names : List String) (hnd : keys.Nodup)
    (hmem : ∀ q, q ∈ keys ↔ q ∈ names) : keys.length = names.dedup.length := by
  apply List.Perm.length_eq
  rw [List.perm_ext_iff_of_nodup hnd (List.nodup_dedup names)]
  intro q
  rw [hmem q, List.mem_dedup]

/-! ## Lemmas on float64 -/

theorem Float64.bitLenAux_bounds (fuel n : Nat) (h : n ≤ fuel) :
    n < 2 ^ Float64.bitLenAux fuel n ∧
      (0 < n → 2 ^ (Float64.bitLenAux fuel n - 1) ≤ n) := by
  induction fuel generalizing n with
  | zero =>
    have h0 : n = 0 := by omega
    subst h0
    simp [Float64.bitLenAux]
  | succ fuel ih =>
    by_cases hn : n = 0
    · subst hn
      simp [Float64.bitLenAux]
    · have hle : n / 2 ≤ fuel := by omega
      obtain ⟨h1, h2⟩ := ih (n / 2) hle
      simp only [Float64.bitLenAux, hn, if_false, Nat.add_sub_cancel]
      constructor
      · rw [Nat.pow_succ]
        omega
      · intro _
        by_cases hhalf : n / 2 = 0
        · rw [hhalf] at h1 ⊢
          have hz : Float64.bitLenAux fuel 0 = 0 := by cases fuel <;> simp [Float64.bitLenAux]
          rw [hz]
          omega
        · have hpos : 0 < n / 2 := Nat.pos_of_ne_zero hhalf
          have h3 := h2 hpos
          have hL : 0 < Float64.bitLenAux fuel (n / 2) := by
            by_contra hc
            have hz : Float64.bitLenAux fuel (n / 2) = 0 := by omega
            rw [hz] at h1
            omega
          have hp : 2 ^ Float64.bitLenAux fuel (n / 2) =
              2 * 2 ^ (Float64.bitLenAux fuel (n / 2) - 1) := by
            rw [← Nat.pow_succ', Nat.succ_eq_add_one, Nat.sub_add_cancel hL]
          omega

theorem Float64.bitLen_bounds (n : Nat) (hn : 0 < n) :
    n < 2 ^ Float64.bitLen n ∧ 2 ^ (Float64.bitLen n - 1) ≤ n ∧ 0 < Float64.bitLen n := by
  obtain ⟨h1, h2⟩ := Float64.bitLenAux_bounds n n (Nat.le_refl n)
  refine ⟨h1, h2 hn, ?_⟩
  by_contra hc
  have h0 : Float64.bitLen n = 0 := by omega
  unfold Float64.bitLen at h0
  rw [h0] at h1
  omega

theorem Float64.scaled_le (n d : Nat) (hn : 0 < n) (hd : 0 < d) :
    d * 2 ^ ((Float64.bitLen n : Int) - (Float64.bitLen d : Int) - 53).toNat ≤
      n * 2 ^ (-((Float64.bitLen n : Int) - (Float64.bitLen d : Int) - 53)).toNat := by
  obtain ⟨hn1, hn2, hn3⟩ := Float64.bitLen_bounds n hn
  obtain ⟨hd1, hd2, hd3⟩ := Float64.bitLen_bounds d hd
  generalize Float64.bitLen n = a at *
  generalize Float64.bitLen d = b at *
  by_cases hcase : b + 53 ≤ a
  · have e1 : ((a : Int) - (b : Int) - 53).toNat = a - b - 53 := by omega
    have e2 : (-((a : Int) - (b : Int) - 53)).toNat = 0 := by omega
    rw [e1, e2, Nat.pow_zero, Nat.mul_one]
    calc d * 2 ^ (a - b - 53) ≤ 2 ^ b * 2 ^ (a - b - 53) :=
          Nat.mul_le_mul_right _ (Nat.le_of_lt hd1)
      _ = 2 ^ (b + (a - b - 53)) := (Nat.pow_add 2 b (a - b - 53)).symm
      _ ≤ 2 ^ (a - 1) := Nat.pow_le_pow_right (by decide) (by omega)
      _ ≤ n := hn2
  · have e1 : ((a : Int) - (b : Int) - 53).toNat = 0 := by omega
    have e2 : (-((a : Int) - (b : Int) - 53)).toNat = b + 53 - a := by omega
    rw [e1, e2, Nat.pow_zero, Nat.mul_one]
    calc d ≤ 2 ^ b := Nat.le_of_lt hd1
      _ ≤ 2 ^ (a - 1 + (b + 53 - a)) := Nat.pow_le_pow_right (by decide) (by omega)
      _ = 2 ^ (a - 1) * 2 ^ (b + 53 - a) := Nat.pow_add 2 (a - 1) (b + 53 - a)
      _ ≤ n * 2 ^ (b + 53 - a) := Nat.mul_le_mul_right _ hn2

theorem Float64.round_mant (neg : Bool) (n d : Nat) (hn : 0 < n) (hd : 0 < d) :
    ∃ m : Nat, 0 < m ∧ (Float64.round neg n d).mant = if neg then -(m : Int) else (m : Int) := by
  have hcond : ¬ (n = 0 ∨ d = 0) := by omega
  have hsc := Float64.scaled_le n d hn hd
  have hD0 : 0 < d * 2 ^ ((Float64.bitLen n : Int) - (Float64.bitLen d : Int) - 53).toNat :=
    Nat.mul_pos hd (Nat.pow_pos (by decide))
  simp only [Float64.round, hcond, if_false]
  refine ⟨_, ?_, rfl⟩
  generalize n * 2 ^ (-((Float64.bitLen n : Int) - (Float64.bitLen d : Int) - 53)).toNat = N at *
  generalize d * 2 ^ ((Float64.bitLen n : Int) - (Float64.bitLen d : Int) - 53).toNat = D0 at *
  have hD : 0 < (if decide (2 ^ 53 * D0 ≤ N) = true then 2 * D0 else D0) ∧
      (if decide (2 ^ 53 * D0 ≤ N) = true then 2 * D0 else D0) ≤ N := by
    split_ifs with hb
    · have hb' : 2 ^ 53 * D0 ≤ N := of_decide_eq_true hb
      omega
    · exact ⟨hD0, hsc⟩
  generalize (if decide (2 ^ 53 * D0 ≤ N) = true then 2 * D0 else D0) = D at *
  have hq : 0 < N / D := Nat.div_pos hD.2 hD.1
  generalize N / D = q at *
  split_ifs <;> omega

theorem Float64.round_zero (neg : Bool) (d : Nat) : Float64.round neg 0 d = Float64.zero := by
  simp [Float64.round]

theorem Float64.neg_zero : Float64.neg Float64.zero = Float64.zero := rfl

theorem Float64.round_not (neg : Bool) (n d : Nat) :
    Float64.round (!neg) n d = Float64.neg (Float64.round neg n d) := by
  by_cases hcond : n = 0 ∨ d = 0
  · simp [Float64.round, hcond, Float64.neg, Float64.zero]
  · cases neg <;> simp [Float64.round, hcond, Float64.neg]

theorem Float64.round_mant_neg (n d : Nat) (hn : 0 < n) (hd : 0 < d) :
    (Float64.round true n d).mant < 0 := by
  obtain ⟨m, hm, he⟩ := Float64.round_mant true n d hn hd
  rw [he]
  simp only [if_true]
  omega

theorem Float64.round_mant_nonneg (n d : Nat) : 0 ≤ (Float64.round false n d).mant := by
  by_cases hcond : n = 0 ∨ d = 0
  · simp [Float64.round, hcond, Float64.zero]
  · obtain ⟨m, hm, he⟩ := Float64.round_mant false n d (by omega) (by omega)
    rw [he]
    simp

theorem Float64.ofInt_neg (i : Int) : Float64.ofInt (-i) = Float64.neg (Float64.ofInt i) := by
  by_cases h0 : i = 0
  · subst h0
    rfl
  · have hs : decide (-i < 0) = !decide (i < 0) := by
      by_cases hi : i < 0
      · have : ¬ (-i < 0) := by omega
        simp [hi, this]
      · have : -i < 0 := by omega
        simp [hi, this]
    unfold Float64.ofInt
    rw [hs, Int.natAbs_neg, Float64.round_not]

theorem Float64.ofInt_mant_neg (i : Int) (hi : i < 0) : (Float64.ofInt i).mant < 0 := by
  unfold Float64.ofInt
  rw [decide_eq_true hi]
  exact Float64.round_mant_neg _ _ (by omega) (by decide)

theorem Float64.div_neg (a b : Float64) :
    Float64.div (Float64.neg a) b = Float64.neg (Float64.div a b) := by
  by_cases h0 : a.mant = 0
  · simp [Float64.div, Float64.neg, h0, Float64.round_zero, Float64.zero]
  · have hs : (decide (-a.mant < 0) != decide (b.mant < 0)) =
        !(decide (a.mant < 0) != decide (b.mant < 0)) := by
      by_cases hi : a.mant < 0
      · have : ¬ (-a.mant < 0) := by omega
        cases decide (b.mant < 0) <;> simp [hi, this]
      · have : -a.mant < 0 := by omega
        cases decide (b.mant < 0) <;> simp [hi, this]
    simp only [Float64.div]
    rw [← Float64.round_not, ← hs]
    simp [Float64.neg]

theorem Float64.div_mant_neg (a b : Float64) (ha : a.mant < 0) (hb : 0 < b.mant) :
    (Float64.div a b).mant < 0 := by
  unfold Float64.div
  have h1 : decide (a.mant < 0) = true := decide_eq_true ha
  have h2 : decide (b.mant < 0) = false := decide_eq_false (by omega)
  rw [h1, h2]
  exact Float64.round_mant_neg _ _
    (Nat.mul_pos (by omega) (Nat.pow_pos (by decide)))
    (Nat.mul_pos (by omega) (Nat.pow_pos (by decide)))

theorem Float64.round_sum_neg (s e : Int) :
    Float64.round (decide (-s < 0)) ((-s).natAbs * 2 ^ e.toNat) (2 ^ (-e).toNat) =
      Float64.neg (Float64.round (decide (s < 0)) (s.natAbs * 2 ^ e.toNat) (2 ^ (-e).toNat)) := by
  by_cases h0 : s = 0
  · subst h0
    simp [Float64.round_zero, Float64.zero, Float64.neg]
  · have hd : decide (-s < 0) = !decide (s < 0) := by
      by_cases hi : s < 0
      · have : ¬ (-s < 0) := by omega
        simp [hi, this]
      · have : -s < 0 := by omega
        simp [hi, this]
    rw [hd, Int.natAbs_neg, Float64.round_not]

theorem Float64.add_neg (a b : Float64) :
    Float64.add (Float64.neg a) (Float64.neg b) = Float64.neg (Float64.add a b) := by
  have hs : ∀ p q : Int, -a.mant * p + -b.mant * q = -(a.mant * p + b.mant * q) := by
    intro p q
    ring
  have hm1 : (Float64.neg a).mant = -a.mant := rfl
  have hm2 : (Float64.neg b).mant = -b.mant := rfl
  have he1 : (Float64.neg a).expo = a.expo := rfl
  have he2 : (Float64.neg b).expo = b.expo := rfl
  simp only [Float64.add, hm1, hm2, he1, he2, hs]
  exact Float64.round_sum_neg _ _

theorem Float64.add_mant_neg (a b : Float64) (ha : a.mant ≤ 0) (hb : b.mant ≤ 0)
    (hab : a.mant < 0 ∨ b.mant < 0) : (Float64.add a b).mant < 0 := by
  simp only [Float64.add]
  have hp1 : (0 : Int) < 2 ^ (a.expo - min a.expo b.expo).toNat := by positivity
  have hp2 : (0 : Int) < 2 ^ (b.expo - min a.expo b.expo).toNat := by positivity
  have hs : a.mant * 2 ^ (a.expo - min a.expo b.expo).toNat +
      b.mant * 2 ^ (b.expo - min a.expo b.expo).toNat < 0 := by
    rcases hab with h | h
    · have := mul_neg_of_neg_of_pos h hp1
      have := mul_nonpos_of_nonpos_of_nonneg hb (le_of_lt hp2)
      omega
    · have := mul_neg_of_neg_of_pos h hp2
      have := mul_nonpos_of_nonpos_of_nonneg ha (le_of_lt hp1)
      omega
  rw [decide_eq_true hs]
  exact Float64.round_mant_neg _ _
    (Nat.mul_pos (by omega) (Nat.pow_pos (by decide))) (Nat.pow_pos (by decide))

theorem tmod_neg_left (a b : Int) : Int.tmod (-a) b = -(Int.tmod a b) := by
  have h1 := Int.tdiv_add_tmod a b
  have h2 := Int.tdiv_add_tmod (-a) b
  rw [Int.neg_tdiv] at h2
  have h3 : b * -(a.tdiv b) = -(b * a.tdiv b) := by ring
  rw [h3] at h2
  omega

theorem Duration.Seconds_neg (d : Duration) :
    Duration.Seconds (-d) = Float64.neg (Duration.Seconds d) := by
  simp only [Duration.Seconds]
  rw [Int.neg_tdiv, tmod_neg_left, Float64.ofInt_neg, Float64.ofInt_neg, Float64.div_neg,
    Float64.add_neg]

theorem Duration.Seconds_mant_neg (d : Int) (hd : d < 0) :
    (Duration.Seconds d).mant < 0 := by
  have hdecomp : (1000000000 : Int) * Int.tdiv d 1000000000 + Int.tmod d 1000000000 = d :=
    Int.tdiv_add_tmod d 1000000000
  have hsec : Int.tdiv d 1000000000 ≤ 0 := by
    have h := Int.tdiv_nonneg (a := -d) (b := 1000000000) (by omega) (by decide)
    rw [Int.neg_tdiv] at h
    omega
  have hnsec : Int.tmod d 1000000000 ≤ 0 := by
    have h := Int.tmod_nonneg (a := -d) 1000000000 (by omega)
    rw [tmod_neg_left] at h
    omega
  have hgiga : (0 : Int) < (Float64.ofInt 1000000000).mant := by decide
  simp only [Duration.Seconds, Second]
  apply Float64.add_mant_neg
  · rcases lt_or_eq_of_le hsec with h | h
    · exact le_of_lt (Float64.ofInt_mant_neg _ h)
    · rw [h]
      decide
  · rcases lt_or_eq_of_le hnsec with h | h
    · exact le_of_lt (Float64.div_mant_neg _ _ (Float64.ofInt_mant_neg _ h) hgiga)
    · rw [h]
      decide
  · rcases lt_or_eq_of_le hsec with h | h
    · exact Or.inl (Float64.ofInt_mant_neg _ h)
    · right
      have hn : Int.tmod d 1000000000 < 0 := by
        rw [h] at hdecomp
        omega
      exact Float64.div_mant_neg _ _ (Float64.ofInt_mant_neg _ hn) hgiga

theorem Float64.bitLen_one : Float64.bitLen 1 = 1 := by decide

theorem Float64.round_one_exact (n : Nat) (hn : 0 < n) (hlt : n < 2 ^ 53) :
    Float64.round false n 1 =
      ⟨((n * 2 ^ (53 - Float64.bitLen n) : Nat) : Int), (Float64.bitLen n : Int) - 53⟩ := by
  obtain ⟨h1, h2, h3⟩ := Float64.bitLen_bounds n hn
  have hL : Float64.bitLen n ≤ 53 := by
    by_contra hc
    have h54 : 2 ^ 53 ≤ 2 ^ (Float64.bitLen n - 1) := Nat.pow_le_pow_right (by decide) (by omega)
    omega
  have hcond : ¬ (n = 0 ∨ 1 = 0) := by omega
  simp only [Float64.round, hcond, if_false, Float64.bitLen_one]
  generalize Float64.bitLen n = L at *
  have e1 : (-((L : Int) - ((1 : Nat) : Int) - 53)).toNat = 54 - L := by omega
  have e2 : ((L : Int) - ((1 : Nat) : Int) - 53).toNat = 0 := by omega
  rw [e1, e2]
  have hsplit : n * 2 ^ (54 - L) = 2 * (n * 2 ^ (53 - L)) := by
    have : 54 - L = (53 - L) + 1 := by omega
    rw [this, Nat.pow_succ]
    ring
  have hq : n * 2 ^ (53 - L) < 2 ^ 53 := by
    calc n * 2 ^ (53 - L) < 2 ^ L * 2 ^ (53 - L) :=
          Nat.mul_lt_mul_of_pos_right h1 (Nat.pow_pos (by decide))
      _ = 2 ^ (L + (53 - L)) := (Nat.pow_add 2 L (53 - L)).symm
      _ = 2 ^ 53 := by rw [Nat.add_sub_cancel' hL]
  have hq' : 2 ^ 52 ≤ n * 2 ^ (53 - L) := by
    calc 2 ^ 52 = 2 ^ (L - 1 + (53 - L)) := by congr 1; omega
      _ = 2 ^ (L - 1) * 2 ^ (53 - L) := Nat.pow_add 2 (L - 1) (53 - L)
      _ ≤ n * 2 ^ (53 - L) := Nat.mul_le_mul_right _ h2
  rw [hsplit]
  generalize n * 2 ^ (53 - L) = q at *
  have hbig : decide (2 ^ 53 * (1 * 2 ^ 0) ≤ 2 * q) = true := by
    apply decide_eq_true
    omega
  simp only [hbig, if_true]
  have hdiv : 2 * q / (2 * (1 * 2 ^ 0)) = q := by omega
  have hmod : 2 * q % (2 * (1 * 2 ^ 0)) = 0 := by omega
  simp only [hdiv, hmod]
  have hne : ¬ (q = 2 ^ 53) := by omega
  simp [hne]
  omega

theorem Float64.toRat_ofInt_of_le (n : Nat) (h : n ≤ 2 ^ 53) :
    Float64.toRat (Float64.ofInt (n : Int)) = (n : Rat) := by
  rcases Nat.eq_zero_or_pos n with h0 | hpos
  · subst h0
    have hz : Float64.ofInt ((0 : Nat) : Int) = Float64.zero := by decide
    rw [hz]
    simp [Float64.toRat, Float64.zero]
  · rcases Nat.lt_or_ge n (2 ^ 53) with hlt | hge
    · have hof : Float64.ofInt (n : Int) = Float64.round false n 1 := by
        unfold Float64.ofInt
        have hd : decide ((n : Int) < 0) = false := decide_eq_false (by omega)
        rw [hd, Int.natAbs_ofNat]
      obtain ⟨h1, h2, h3⟩ := Float64.bitLen_bounds n hpos
      have hL : Float64.bitLen n ≤ 53 := by
        by_contra hc
        have h54 : 2 ^ 53 ≤ 2 ^ (Float64.bitLen n - 1) :=
          Nat.pow_le_pow_right (by decide) (by omega)
        omega
      rw [hof, Float64.round_one_exact n hpos hlt]
      simp only [Float64.toRat]
      generalize Float64.bitLen n = L at *
      have he : ((L : Int) - 53) = -((53 - L : Nat) : Int) := by omega
      rw [he, zpow_neg, zpow_natCast]
      push_cast
      field_simp
    · have hn : n = 2 ^ 53 := by omega
      subst hn
      have hv : Float64.ofInt ((2 ^ 53 : Nat) : Int) = ⟨4503599627370496, 1⟩ := by decide
      rw [hv]
      simp only [Float64.toRat]
      norm_num

theorem Counter.toRat_exported (n : Nat) (h : n ≤ 2 ^ 53) :
    Float64.toRat (Counter.exported n) = (n : Rat) := by
  have hmod : Counter.valInt n = n := by
    unfold Counter.valInt
    apply Nat.mod_eq_of_lt
    have : (2 : Nat) ^ 53 < 2 ^ 64 := by decide
    omega
  unfold Counter.exported
  rw [hmod]
  exact Float64.toRat_ofInt_of_le n h

theorem Counter.valInt_Inc (c : Nat) :
    Counter.valInt (Counter.Inc c) = (Counter.valInt c + 1) % 2 ^ 64 := by
  simp [Counter.valInt, Counter.Inc, Nat.add_mod]

/-! ## Lemmas on UTF-8 -/

theorem toNat_ofNat (n : Nat) (h : n < 0xD800 ∨ (0xDFFF < n ∧ n < 0x110000)) :
    (Char.ofNat n).toNat = n := by
  have hv : n.isValidChar := h
  unfold Char.ofNat
  rw [dif_pos hv]
  rfl

theorem utf8Cont_iff (b : Nat) : utf8Cont b = true ↔ 0x80 ≤ b ∧ b ≤ 0xBF := by
  simp [utf8Cont]

theorem utf8Second_iff (b0 b1 : Nat) :
    utf8Second b0 b1 = true ↔
      (0x80 ≤ b1 ∧ b1 ≤ 0xBF ∧ (b0 = 0xE0 → 0xA0 ≤ b1) ∧ (b0 = 0xED → b1 ≤ 0x9F) ∧
        (b0 = 0xF0 → 0x90 ≤ b1) ∧ (b0 = 0xF4 → b1 ≤ 0x8F)) := by
  unfold utf8Second
  split_ifs with h1 h2 h3 h4 <;> simp [utf8Cont] <;> omega

theorem decodeRune_sound (s : List Nat) (n : Nat) (rest : List Nat)
    (h : decodeRune s = some (n, rest)) :
    (n < 0xD800 ∨ (0xDFFF < n ∧ n < 0x110000)) ∧ s = encodeRune (Char.ofNat n) ++ rest := by
  cases s with
  | nil => simp [decodeRune] at h
  | cons b0 tl =>
    simp only [decodeRune] at h
    split_ifs at h with h1 h2 h3 h4
    · simp only [Option.some.injEq, Prod.mk.injEq] at h
      obtain ⟨hn, hr⟩ := h
      subst hn hr
      have hv : b0 < 0xD800 ∨ (0xDFFF < b0 ∧ b0 < 0x110000) := by omega
      refine ⟨hv, ?_⟩
      simp [encodeRune, toNat_ofNat b0 hv, h1]
    · cases tl with
      | nil => simp at h
      | cons b1 tl1 =>
        simp only at h
        split_ifs at h with hc
        rw [utf8Cont_iff] at hc
        simp only [Option.some.injEq, Prod.mk.injEq] at h
        obtain ⟨hn, hr⟩ := h
        subst hn hr
        have hv : (b0 - 0xC0) * 64 + (b1 - 0x80) < 0xD800 ∨
            (0xDFFF < (b0 - 0xC0) * 64 + (b1 - 0x80) ∧
              (b0 - 0xC0) * 64 + (b1 - 0x80) < 0x110000) := by omega
        refine ⟨hv, ?_⟩
        have e1 : ¬ ((b0 - 0xC0) * 64 + (b1 - 0x80) < 0x80) := by omega
        have e2 : (b0 - 0xC0) * 64 + (b1 - 0x80) < 0x800 := by omega
        simp only [encodeRune, toNat_ofNat _ hv, e1, e2, if_true, if_false, List.cons_append,
          List.nil_append, List.cons.injEq, and_true]
        omega
    · cases tl with
      | nil => simp at h
      | cons b1 tl1 =>
        cases tl1 with
        | nil => simp at h
        | cons b2 tl2 =>
          simp only at h
          split_ifs at h with hc
          simp only [Bool.and_eq_true, utf8Second_iff, utf8Cont_iff] at hc
          simp only [Option.some.injEq, Prod.mk.injEq] at h
          obtain ⟨hn, hr⟩ := h
          subst hn hr
          have hv : (b0 - 0xE0) * 4096 + (b1 - 0x80) * 64 + (b2 - 0x80) < 0xD800 ∨
              (0xDFFF < (b0 - 0xE0) * 4096 + (b1 - 0x80) * 64 + (b2 - 0x80) ∧
                (b0 - 0xE0) * 4096 + (b1 - 0x80) * 64 + (b2 - 0x80) < 0x110000) := by omega
          refine ⟨hv, ?_⟩
          have e1 : ¬ ((b0 - 0xE0) * 4096 + (b1 - 0x80) * 64 + (b2 - 0x80) < 0x80) := by omega
          have e2 : ¬ ((b0 - 0xE0) * 4096 + (b1 - 0x80) * 64 + (b2 - 0x80) < 0x800) := by omega
          have e3 : (b0 - 0xE0) * 4096 + (b1 - 0x80) * 64 + (b2 - 0x80) < 0x10000 := by omega
          simp only [encodeRune, toNat_ofNat _ hv, e1, e2, e3, if_true, if_false,
            List.cons_append, List.nil_append, List.cons.injEq, and_true]
          omega
    · cases tl with
      | nil => simp at h
      | cons b1 tl1 =>
        cases tl1 with
        | nil => simp at h
        | cons b2 tl2 =>
          cases tl2 with
          | nil => simp at h
          | cons b3 tl3 =>
            simp only at h
            split_ifs at h with hc
            simp only [Bool.and_eq_true, utf8Second_iff, utf8Cont_iff] at hc
            simp only [Option.some.injEq, Prod.mk.injEq] at h
            obtain ⟨hn, hr⟩ := h
            subst hn hr
            have hv : (b0 - 0xF0) * 262144 + (b1 - 0x80) * 4096 + (b2 - 0x80) * 64 + (b3 - 0x80)
                  < 0xD800 ∨
                (0xDFFF < (b0 - 0xF0) * 262144 + (b1 - 0x80) * 4096 + (b2 - 0x80) * 64
                    + (b3 - 0x80) ∧
                  (b0 - 0xF0) * 262144 + (b1 - 0x80) * 4096 + (b2 - 0x80) * 64 + (b3 - 0x80)
                    < 0x110000) := by omega
            refine ⟨hv, ?_⟩
            have e1 : ¬ ((b0 - 0xF0) * 262144 + (b1 - 0x80) * 4096 + (b2 - 0x80) * 64
                + (b3 - 0x80) < 0x80) := by omega
            have e2 : ¬ ((b0 - 0xF0) * 262144 + (b1 - 0x80) * 4096 + (b2 - 0x80) * 64
                + (b3 - 0x80) < 0x800) := by omega
            have e3 : ¬ ((b0 - 0xF0) * 262144 + (b1 - 0x80) * 4096 + (b2 - 0x80) * 64
                + (b3 - 0x80) < 0x10000) := by omega
            simp only [encodeRune, toNat_ofNat _ hv, e1, e2, e3, if_false,
              List.cons_append, List.nil_append, List.cons.injEq, and_true]
            omega

theorem encodeUTF8_cons (c : Char) (cs : List Char) :
    encodeUTF8 (c :: cs) = encodeRune c ++ encodeUTF8 cs := by
  simp [encodeUTF8]

theorem decodeUTF8Aux_sound (fuel : Nat) : ∀ (s : List Nat) (cs : List Char),
    decodeUTF8Aux fuel s = some cs → encodeUTF8 cs = s := by
  induction fuel with
  | zero =>
    intro s cs h
    simp only [decodeUTF8Aux] at h
    split_ifs at h with hs
    simp only [Option.some.injEq] at h
    subst h hs
    rfl
  | succ fuel ih =>
    intro s cs h
    simp only [decodeUTF8Aux] at h
    split_ifs at h with hs
    · simp only [Option.some.injEq] at h
      subst h hs
      rfl
    · cases hr : decodeRune s with
      | none => simp [hr] at h
      | some p =>
        obtain ⟨n, rest⟩ := p
        simp only [hr, Option.map_eq_some'] at h
        obtain ⟨cs', hcs', hcons⟩ := h
        subst hcons
        obtain ⟨_, hdec⟩ := decodeRune_sound s n rest hr
        rw [encodeUTF8_cons, ih rest cs' hcs', ← hdec]

theorem text_injective (s1 s2 : GoString) (q : String)
    (h1 : s1.text = some q) (h2 : s2.text = some q) : s1 = s2 := by
  simp only [GoString.text, Option.map_eq_some'] at h1 h2
  obtain ⟨cs1, hd1, hq1⟩ := h1
  obtain ⟨cs2, hd2, hq2⟩ := h2
  have hcs : cs1 = cs2 := by
    have hm : String.mk cs1 = String.mk cs2 := hq1.trans hq2.symm
    exact congrArg String.data hm
  subst hcs
  have e1 := decodeUTF8Aux_sound _ _ _ hd1
  have e2 := decodeUTF8Aux_sound _ _ _ hd2
  have hmap : s1.map Fin.val = s2.map Fin.val := e1.symm.trans e2
  exact List.map_injective_iff.2 Fin.val_injective hmap

theorem decodeRune_encodeRune (c : Char) (rest : List Nat) :
    decodeRune (encodeRune c ++ rest) = some (c.toNat, rest) := by
  have hv : c.toNat < 0xD800 ∨ (0xDFFF < c.toNat ∧ c.toNat < 0x110000) := c.valid
  unfold encodeRune
  generalize c.toNat = n at *
  split_ifs with h1 h2 h3
  · simp only [List.cons_append, List.nil_append, decodeRune, h1, if_true]
  · have a1 : ¬ (0xC0 + n / 64 < 0x80) := by omega
    have a2 : 0xC2 ≤ 0xC0 + n / 64 ∧ 0xC0 + n / 64 ≤ 0xDF := by omega
    have a3 : utf8Cont (0x80 + n % 64) = true := by rw [utf8Cont_iff]; omega
    simp only [List.cons_append, List.nil_append, decodeRune, a1, a2, a3, if_true, if_false,
      and_self, Option.some.injEq, Prod.mk.injEq, and_true]
    omega
  · have a1 : ¬ (0xE0 + n / 4096 < 0x80) := by omega
    have a2 : ¬ (0xC2 ≤ 0xE0 + n / 4096 ∧ 0xE0 + n / 4096 ≤ 0xDF) := by omega
    have a3 : 0xE0 ≤ 0xE0 + n / 4096 ∧ 0xE0 + n / 4096 ≤ 0xEF := by omega
    have a4 : utf8Second (0xE0 + n / 4096) (0x80 + n / 64 % 64) = true := by
      rw [utf8Second_iff]; omega
    have a5 : utf8Cont (0x80 + n % 64) = true := by rw [utf8Cont_iff]; omega
    simp only [List.cons_append, List.nil_append, decodeRune, a1, a2, a3, a4, a5, if_true,
      if_false, and_self, Bool.and_self, Option.some.injEq, Prod.mk.injEq, and_true]
    omega
  · have a1 : ¬ (0xF0 + n / 262144 < 0x80) := by omega
    have a2 : ¬ (0xC2 ≤ 0xF0 + n / 262144 ∧ 0xF0 + n / 262144 ≤ 0xDF) := by omega
    have a3 : ¬ (0xE0 ≤ 0xF0 + n / 262144 ∧ 0xF0 + n / 262144 ≤ 0xEF) := by omega
    have a4 : 0xF0 ≤ 0xF0 + n / 262144 ∧ 0xF0 + n / 262144 ≤ 0xF4 := by omega
    have a5 : utf8Second (0xF0 + n / 262144) (0x80 + n / 4096 % 64) = true := by
      rw [utf8Second_iff]; omega
    have a6 : utf8Cont (0x80 + n / 64 % 64) = true := by rw [utf8Cont_iff]; omega
    have a7 : utf8Cont (0x80 + n % 64) = true := by rw [utf8Cont_iff]; omega
    simp only [List.cons_append, List.nil_append, decodeRune, a1, a2, a3, a4, a5, a6, a7,
      if_true, if_false, and_self, Bool.and_self, Option.some.injEq, Prod.mk.injEq, and_true]
    omega

theorem encodeRune_length_pos (c : Char) : 0 < (encodeRune c).length := by
  unfold encodeRune
  split_ifs <;> simp

theorem encodeRune_lt (c : Char) : ∀ b ∈ encodeRune c, b < 256 := by
  have hv : c.toNat < 0xD800 ∨ (0xDFFF < c.toNat ∧ c.toNat < 0x110000) := c.valid
  unfold encodeRune
  generalize c.toNat = n at *
  intro b hb
  split_ifs at hb <;> simp only [List.mem_cons, List.mem_singleton, List.mem_nil_iff,
    or_false] at hb <;> omega

theorem decodeUTF8Aux_encodeUTF8 (cs : List Char) : ∀ fuel, cs.length ≤ fuel →
    decodeUTF8Aux fuel (encodeUTF8 cs) = some cs := by
  induction cs with
  | nil =>
    intro fuel _
    cases fuel <;> simp [decodeUTF8Aux, encodeUTF8]
  | cons c cs ih =>
    intro fuel hf
    cases fuel with
    | zero => simp at hf
    | succ fuel =>
      have hne : encodeUTF8 (c :: cs) ≠ [] := by
        rw [encodeUTF8_cons]
        intro h
        have hl := encodeRune_length_pos c
        rw [List.append_eq_nil.1 h |>.1] at hl
        simp at hl
      simp only [decodeUTF8Aux, hne, if_false]
      rw [encodeUTF8_cons, decodeRune_encodeRune]
      simp only [ih fuel (by simpa using hf), Option.map_some', Char.ofNat_toNat]

theorem encodeUTF8_length (cs : List Char) : cs.length ≤ (encodeUTF8 cs).length := by
  induction cs with
  | nil => simp
  | cons c cs ih =>
    rw [encodeUTF8_cons, List.length_append, List.length_cons]
    have := encodeRune_length_pos c
    omega

theorem decodeUTF8_encodeUTF8 (cs : List Char) : decodeUTF8 (encodeUTF8 cs) = some cs :=
  decodeUTF8Aux_encodeUTF8 cs _ (encodeUTF8_length cs)

theorem text_ofText (q : String) : GoString.text (GoString.ofText q) = some q := by
  have hmap : List.map Fin.val (GoString.ofText q) = encodeUTF8 q.data := by
    unfold GoString.ofText
    rw [List.map_map]
    have hid : ∀ b ∈ encodeUTF8 q.data, (Fin.val ∘ fun b => (Fin.ofNat b : Fin 256)) b = id b := by
      intro b hb
      obtain ⟨c, _, hbc⟩ := List.mem_flatMap.1 hb
      have hlt := encodeRune_lt c b hbc
      simp [Fin.ofNat, Nat.mod_eq_of_lt hlt]
    rw [List.map_congr_left hid, List.map_id]
  unfold GoString.text
  rw [hmap, decodeUTF8_encodeUTF8]
  rfl

theorem record_metrics_of_empty (sm : ServerMetrics) (q : String) (d : Duration) (msg : String)
    (h1 : sm.MetricQueryDuration.metrics = []) (h2 : sm.MetricQueryErrorTotal.metrics = []) :
    (sm.RecordMetricQueryExecution q d (some msg)).MetricQueryDuration.metrics =
        [(q, Duration.Seconds d)] ∧
      (sm.RecordMetricQueryExecution q d (some msg)).MetricQueryErrorTotal.metrics = [(q, 1)] := by
  simp [ServerMetrics.RecordMetricQueryExecution, MetricVec.WithLabelValues, MetricVec.update,
    h1, h2, Map.get, Map.set, Gauge.Set, Counter.Inc]

/-! ## Lemmas on recorders with valid definitions -/

theorem constLabels_of_valid_definitions (nspace exporter t : String) (M : Labels)
    (hM : Map.NodupKeys M)
    (hv1 : (NewServerMetrics nspace exporter t M).1.MetricQueryDuration.desc.err = none)
    (hv2 : (NewServerMetrics nspace exporter t M).1.MetricQueryErrorTotal.desc.err = none) :
    (∀ k, Map.get (NewServerMetrics nspace exporter t M).1.constLabels k =
      if k = "datname" then some t else Map.get M k) ∧
    Map.NodupKeys (NewServerMetrics nspace exporter t M).1.constLabels ∧
    (NewServerMetrics nspace exporter t M).1.MetricQueryErrorTotal.desc.constLabels =
      (NewServerMetrics nspace exporter t M).1.constLabels := by
  refine ⟨get_constLabels nspace exporter t M hM hv1, ?_, ?_⟩
  · rw [newServerMetrics_constLabels nspace exporter t M hv1]
    apply Map.nodupKeys_set
    apply nodupKeys_foldl_set
    simp [Map.NodupKeys, Map.keys]
  · rw [newServerMetrics_errorLabels nspace exporter t M hv2,
      newServerMetrics_constLabels nspace exporter t M hv1]

theorem samples_of_valid_definitions (nspace exporter t : String) (M : Labels)
    (calls : List Call) (hM : Map.NodupKeys M)
    (hv1 : (NewServerMetrics nspace exporter t M).1.MetricQueryDuration.desc.err = none)
    (hv2 : (NewServerMetrics nspace exporter t M).1.MetricQueryErrorTotal.desc.err = none) :
    ((NewServerMetrics nspace exporter t M).1.recordAll calls).constLabels =
      (NewServerMetrics nspace exporter t M).1.constLabels ∧
    ((NewServerMetrics nspace exporter t M).1.recordAll
        calls).MetricQueryErrorTotal.desc.constLabels =
      (NewServerMetrics nspace exporter t M).1.constLabels ∧
    (∀ k, Map.get ((NewServerMetrics nspace exporter t M).1.recordAll calls).constLabels k =
      if k = "datname" then some t else Map.get M k) ∧
    ∀ s ∈ (((NewServerMetrics nspace exporter t M).1.recordAll calls).Collect []).2,
      ∃ q, s.labels = ("query", q) :: (NewServerMetrics nspace exporter t M).1.constLabels ∧
        ((∃ v, s.value = SampleValue.gauge v ∧
            ((NewServerMetrics nspace exporter t M).1.recordAll calls).duration q = some v) ∨
          (∃ n, s.value = SampleValue.counter (Counter.exported n) ∧
            ((NewServerMetrics nspace exporter t M).1.recordAll calls).errorCount q = some n)) := by
  obtain ⟨hd1, hd2⟩ := recordAll_desc calls (NewServerMetrics nspace exporter t M).1
  obtain ⟨hn1, hn2⟩ := recordAll_nodupKeys calls (NewServerMetrics nspace exporter t M).1
    (by simp [NewServerMetrics, NewGaugeVec, Map.NodupKeys, Map.keys])
    (by simp [NewServerMetrics, NewCounterVec, Map.NodupKeys, Map.keys])
  have hlab := (constLabels_of_valid_definitions nspace exporter t M hM hv1 hv2).2.2
  have hc1 : ((NewServerMetrics nspace exporter t M).1.recordAll calls).constLabels =
      (NewServerMetrics nspace exporter t M).1.constLabels := by
    simp only [ServerMetrics.constLabels, hd1]
  have hc2 : ((NewServerMetrics nspace exporter t M).1.recordAll
      calls).MetricQueryErrorTotal.desc.constLabels =
      (NewServerMetrics nspace exporter t M).1.constLabels := by
    rw [hd2]
    exact hlab
  refine ⟨hc1, hc2, ?_, ?_⟩
  · intro k
    rw [hc1]
    exact get_constLabels nspace exporter t M hM hv1 k
  · intro s hs
    have hs' : s ∈ ((NewServerMetrics nspace exporter t M).1.recordAll calls).samples := hs
    rw [samples_eq, List.mem_append] at hs'
    rcases hs' with hg | hcnt
    · obtain ⟨⟨q, v⟩, hmem, hsv⟩ := List.mem_map.1 hg
      refine ⟨q, ?_, Or.inl ⟨v, ?_, Map.get_of_mem _ _ _ hn1 hmem⟩⟩
      · rw [← hsv, hd1]
        rfl
      · rw [← hsv]
    · obtain ⟨⟨q, n⟩, hmem, hsv⟩ := List.mem_map.1 hcnt
      refine ⟨q, ?_, Or.inr ⟨n, ?_, Map.get_of_mem _ _ _ hn2 hmem⟩⟩
      · rw [← hsv, hd2]
        simp only [labelPairs]
        rw [hlab]
        rfl
      · rw [← hsv]

/-! ## The claims -/

/-- C1: after any finite sequence of RecordMetricQueryExecution calls on a
freshly constructed recorder, the error-count entry of every query name `q`
of the sequence is exactly the number of calls for `q` with a non-nil error,
whatever the successful calls for `q` and the calls for other names are. -/
theorem errorCount_counts_failures (nspace exporter t : String) (M : Labels)
    (calls : List Call) (q : String) (hq : q ∈ calls.map Call.queryName) :
    ((NewServerMetrics nspace exporter t M).1.recordAll calls).errorCount q =
      some (failures calls q) := by
  rw [errorCount_recordAll, newServerMetrics_errorCount]
  simp [hq]

theorem errorCount_counts_failures_witness :
    "a" ∈ ([⟨"a", 5, some "x"⟩, ⟨"b", 7, some "y"⟩, ⟨"a", 0, none⟩, ⟨"a", 3, some "z"⟩] :
        List Call).map Call.queryName ∧
    ((NewServerMetrics "pg" "exporter" "db1" [("env", "prod")]).1.recordAll
        [⟨"a", 5, some "x"⟩, ⟨"b", 7, some "y"⟩, ⟨"a", 0, none⟩, ⟨"a", 3, some "z"⟩]).errorCount
        "a" =
      some (failures [⟨"a", 5, some "x"⟩, ⟨"b", 7, some "y"⟩, ⟨"a", 0, none⟩,
        ⟨"a", 3, some "z"⟩] "a") ∧
    failures [⟨"a", 5, some "x"⟩, ⟨"b", 7, some "y"⟩, ⟨"a", 0, none⟩, ⟨"a", 3, some "z"⟩] "a"
      = 2 :=
  ⟨by decide, errorCount_counts_failures "pg" "exporter" "db1" [("env", "prod")] _ "a"
    (by decide), by decide⟩

/-- C2: after a sequence of RecordMetricQueryExecution calls on any recorder,
the duration entry of every query name `q` of the sequence is the duration in
seconds of the last call for `q`, whatever its error argument; earlier
durations for `q` play no part, and a zero duration gives the value 0. -/
theorem duration_is_last_recorded (sm : ServerMetrics) (calls : List Call) (q : String)
    (hq : q ∈ calls.map Call.queryName) :
    ∃ pre c post, calls = pre ++ c :: post ∧ c.queryName = q ∧
      (∀ c' ∈ post, c'.queryName ≠ q) ∧
      (sm.recordAll calls).duration q = some (Duration.Seconds c.duration) ∧
      (c.duration = 0 → (sm.recordAll calls).duration q = some Float64.zero) := by
  obtain ⟨pre, c, post, hdec, hc, hpost⟩ := exists_last_call calls q hq
  have hval : (sm.recordAll calls).duration q = some (Duration.Seconds c.duration) := by
    rw [hdec, recordAll_append, recordAll_cons, duration_recordAll_not_mem _ _ _ hpost,
      duration_record]
    simp [hc]
  refine ⟨pre, c, post, hdec, hc, hpost, hval, ?_⟩
  intro h0
  rw [hval, h0]
  rfl

theorem duration_is_last_recorded_witness :
    ∃ pre c post,
      ([⟨"a", 12000000, none⟩, ⟨"a", 0, some "x"⟩, ⟨"b", 9, none⟩] : List Call) =
        pre ++ c :: post ∧ c.queryName = "a" ∧
      (∀ c' ∈ post, c'.queryName ≠ "a") ∧
      ((NewServerMetrics "pg" "exporter" "db1" []).1.recordAll
        [⟨"a", 12000000, none⟩, ⟨"a", 0, some "x"⟩, ⟨"b", 9, none⟩]).duration "a" =
          some (Duration.Seconds c.duration) ∧
      (c.duration = 0 →
        ((NewServerMetrics "pg" "exporter" "db1" []).1.recordAll
          [⟨"a", 12000000, none⟩, ⟨"a", 0, some "x"⟩, ⟨"b", 9, none⟩]).duration "a" =
            some Float64.zero) :=
  duration_is_last_recorded (NewServerMetrics "pg" "exporter" "db1" []).1
    [⟨"a", 12000000, none⟩, ⟨"a", 0, some "x"⟩, ⟨"b", 9, none⟩] "a" (by decide)

/-- C3: a RecordMetricQueryExecution call for `q` with a nil error creates the
error-count entry of `q` with value 0 when the series has none, so that the
next Collect sends an error-count sample for `q` with value 0; when the entry
exists, the call leaves its value as it is. -/
theorem nil_error_initialises_errorCount (sm : ServerMetrics) (q : String) (d : Duration) :
    (sm.errorCount q = none →
      (sm.RecordMetricQueryExecution q d none).errorCount q = some 0 ∧
      (sm.RecordMetricQueryExecution q d none).errorSample q 0 ∈
        ((sm.RecordMetricQueryExecution q d none).Collect []).2) ∧
    (∀ v, sm.errorCount q = some v →
      (sm.RecordMetricQueryExecution q d none).errorCount q = some v ∧
      (sm.RecordMetricQueryExecution q d none).errorSample q v ∈
        ((sm.RecordMetricQueryExecution q d none).Collect []).2) := by
  constructor
  · intro h
    have hc : (sm.RecordMetricQueryExecution q d none).errorCount q = some 0 := by
      rw [errorCount_record, h]
      simp
    exact ⟨hc, errorSample_mem _ _ _ hc⟩
  · intro v h
    have hc : (sm.RecordMetricQueryExecution q d none).errorCount q = some v := by
      rw [errorCount_record, h]
      simp
    exact ⟨hc, errorSample_mem _ _ _ hc⟩

theorem nil_error_initialises_errorCount_witness :
    ((NewServerMetrics "pg" "exporter" "db1" []).1.errorCount "ping" = none ∧
      ((NewServerMetrics "pg" "exporter" "db1" []).1.RecordMetricQueryExecution "ping" 5
          none).errorCount "ping" = some 0 ∧
      ((NewServerMetrics "pg" "exporter" "db1" []).1.RecordMetricQueryExecution "ping" 5
          none).errorSample "ping" 0 ∈
        (((NewServerMetrics "pg" "exporter" "db1" []).1.RecordMetricQueryExecution "ping" 5
          none).Collect []).2) ∧
    (((NewServerMetrics "pg" "exporter" "db1" []).1.RecordMetricQueryExecution "ping" 5
        (some "x")).errorCount "ping" = some 1 ∧
      (((NewServerMetrics "pg" "exporter" "db1" []).1.RecordMetricQueryExecution "ping" 5
        (some "x")).RecordMetricQueryExecution "ping" 6 none).errorCount "ping" = some 1) :=
  ⟨⟨by decide,
      (nil_error_initialises_errorCount (NewServerMetrics "pg" "exporter" "db1" []).1 "ping"
        5).1 (by decide)⟩,
    ⟨by decide,
      ((nil_error_initialises_errorCount
        ((NewServerMetrics "pg" "exporter" "db1" []).1.RecordMetricQueryExecution "ping" 5
          (some "x")) "ping" 6).2 1 (by decide)).1⟩⟩

/-- C4, at the failing input: with an extra label of empty name, or one named
"query", the definitions of both families are invalid and their descriptors
hold no constant label, so "datname" is not among the constant labels of the
recorder, where the claim has it map to the database name. -/
theorem constLabels_missing_for_invalid_label :
    ((NewServerMetrics "pg" "exporter" "db1" [("", "x")]).1.MetricQueryDuration.desc.err ≠ none ∧
      (NewServerMetrics "pg" "exporter" "db1" [("", "x")]).1.constLabels = [] ∧
      (NewServerMetrics "pg" "exporter" "db1" [("", "x")]).1.MetricQueryErrorTotal.desc.constLabels
        = [] ∧
      Map.get (NewServerMetrics "pg" "exporter" "db1" [("", "x")]).1.constLabels "datname" =
        none) ∧
    ((NewServerMetrics "pg" "exporter" "db1" [("query", "x")]).1.MetricQueryDuration.desc.err ≠
        none ∧
      (NewServerMetrics "pg" "exporter" "db1" [("query", "x")]).1.constLabels = [] ∧
      Map.get (NewServerMetrics "pg" "exporter" "db1" [("query", "x")]).1.constLabels "datname" =
        none) := by
  decide

/-- C5, the claim fails: with an extra label whose name is empty, and with an
extra label named "query", the family definitions are invalid (the
descriptors record an error), and NewServerMetrics still returns a nil error
next to the recorder. -/
theorem newServerMetrics_invalid_definitions_nil_error :
    ((NewServerMetrics "pg" "exporter" "db1" [("", "x")]).1.MetricQueryDuration.desc.err ≠ none ∧
      (NewServerMetrics "pg" "exporter" "db1" [("", "x")]).1.MetricQueryErrorTotal.desc.err ≠
        none ∧
      (NewServerMetrics "pg" "exporter" "db1" [("", "x")]).2 = none) ∧
    ((NewServerMetrics "pg" "exporter" "db1" [("query", "x")]).1.MetricQueryDuration.desc.err ≠
        none ∧
      (NewServerMetrics "pg" "exporter" "db1" [("query", "x")]).1.MetricQueryErrorTotal.desc.err ≠
        none ∧
      (NewServerMetrics "pg" "exporter" "db1" [("query", "x")]).2 = none) := by
  decide

/-- C5, amended: NewServerMetrics never fails; for every database name and
every extra-label mapping, valid or not, it returns a nil error. -/
theorem newServerMetrics_error_is_nil (nspace exporter t : String) (M : Labels) :
    (NewServerMetrics nspace exporter t M).2 = none := rfl

/-- C6, the claim fails: in the state where query "q" has failed 2^53 times, a
failing call for "q" does not raise the error count the recorder exports:
the count becomes 2^53 + 1, which the float64 of the sample rounds to 2^53,
so the sample of "q" is the same before and after the call.  And at the
count 2^64 - 1, the largest the library's integer holds, a failing call
wraps the integer to 0, so the exported value drops to 0. -/
theorem errorCount_stalls_at_2_53 :
    (recorderWithCount (2 ^ 53)).errorCount "q" = some (2 ^ 53) ∧
    ((recorderWithCount (2 ^ 53)).RecordMetricQueryExecution "q" 5
        (some "failed")).errorCount "q" = some (2 ^ 53 + 1) ∧
    Counter.exported (2 ^ 53 + 1) = Counter.exported (2 ^ 53) ∧
    ((recorderWithCount (2 ^ 53)).RecordMetricQueryExecution "q" 5
        (some "failed")).errorSample "q" (2 ^ 53 + 1) =
      (recorderWithCount (2 ^ 53)).errorSample "q" (2 ^ 53) ∧
    (recorderWithCount (2 ^ 53)).errorSample "q" (2 ^ 53) ∈
      ((recorderWithCount (2 ^ 53)).Collect []).2 ∧
    ((recorderWithCount (2 ^ 53)).RecordMetricQueryExecution "q" 5
        (some "failed")).errorSample "q" (2 ^ 53 + 1) ∈
      (((recorderWithCount (2 ^ 53)).RecordMetricQueryExecution "q" 5
        (some "failed")).Collect []).2 ∧
    Counter.valInt (Counter.Inc (2 ^ 64 - 1)) = 0 ∧
    Counter.exported (Counter.Inc (2 ^ 64 - 1)) = Float64.zero ∧
    Counter.exported (2 ^ 64 - 1) = ⟨4503599627370496, 12⟩ := by
  have h0 : (recorderWithCount (2 ^ 53)).errorCount "q" = some (2 ^ 53) := by decide
  have h1 : ((recorderWithCount (2 ^ 53)).RecordMetricQueryExecution "q" 5
      (some "failed")).errorCount "q" = some (2 ^ 53 + 1) := by
    rw [errorCount_record, h0]
    rfl
  have hx : Counter.exported (2 ^ 53 + 1) = Counter.exported (2 ^ 53) := by decide
  refine ⟨h0, h1, hx, ?_, errorSample_mem _ _ _ h0, errorSample_mem _ _ _ h1, by decide,
    by decide, by decide⟩
  simp only [ServerMetrics.errorSample, hx, (record_desc _ _ _ _).2]

/-- C6, amended: for every recorder state in which the error count of `q` is
below 2^53, a RecordMetricQueryExecution call keeps the entry of `q`, with a
value greater than or equal to the old one: the exported value is the count,
a non-negative integer, and it grows by exactly 1 when the call is for `q`
with a non-nil error and by 0 otherwise. -/
theorem errorCount_step_below_2_53 (sm : ServerMetrics) (q' : String) (d : Duration)
    (e : Option String) (q : String) (v : Nat) (h : sm.errorCount q = some v)
    (hv : v < 2 ^ 53) :
    (sm.RecordMetricQueryExecution q' d e).errorCount q =
      some (v + (if q' = q ∧ e.isSome then 1 else 0)) ∧
    Float64.toRat (Counter.exported v) = (v : Rat) ∧
    Float64.toRat (Counter.exported (v + (if q' = q ∧ e.isSome then 1 else 0))) =
      (v : Rat) + (if q' = q ∧ e.isSome then 1 else 0) ∧
    Float64.toRat (Counter.exported v) ≤
      Float64.toRat (Counter.exported (v + (if q' = q ∧ e.isSome then 1 else 0))) ∧
    (sm.RecordMetricQueryExecution q' d e).errorSample q
        (v + (if q' = q ∧ e.isSome then 1 else 0)) ∈
      ((sm.RecordMetricQueryExecution q' d e).Collect []).2 := by
  have hstep : (sm.RecordMetricQueryExecution q' d e).errorCount q =
      some (v + (if q' = q ∧ e.isSome then 1 else 0)) := by
    rw [errorCount_record]
    by_cases hq : q = q'
    · subst hq
      cases e <;> simp [h]
    · have hq2 : ¬ q' = q := fun x => hq x.symm
      simp [hq, hq2, h]
  have hold : Float64.toRat (Counter.exported v) = (v : Rat) :=
    Counter.toRat_exported v (by omega)
  have hnew : Float64.toRat (Counter.exported (v + (if q' = q ∧ e.isSome then 1 else 0))) =
      (v : Rat) + (if q' = q ∧ e.isSome then 1 else 0) := by
    rw [Counter.toRat_exported _ (by split_ifs <;> omega)]
    split_ifs <;> simp
  refine ⟨hstep, hold, hnew, ?_, errorSample_mem _ _ _ hstep⟩
  rw [hold, hnew]
  split_ifs <;> simp

theorem errorCount_step_below_2_53_witness :
    ((NewServerMetrics "pg" "exporter" "db1" []).1.recordAll
        [⟨"a", 1, some "x"⟩, ⟨"b", 2, none⟩]).errorCount "a" = some 1 ∧
    (1 : Nat) < 2 ^ 53 ∧
    (((NewServerMetrics "pg" "exporter" "db1" []).1.recordAll
        [⟨"a", 1, some "x"⟩, ⟨"b", 2, none⟩]).RecordMetricQueryExecution "a" 3
          (some "y")).errorCount "a" = some 2 ∧
    Float64.toRat (Counter.exported 2) = 1 + 1 :=
  ⟨by decide, by decide,
    (errorCount_step_below_2_53
      ((NewServerMetrics "pg" "exporter" "db1" []).1.recordAll
        [⟨"a", 1, some "x"⟩, ⟨"b", 2, none⟩]) "a" 3 (some "y") "a" 1 (by decide) (by decide)).1,
    by simpa using (errorCount_step_below_2_53
      ((NewServerMetrics "pg" "exporter" "db1" []).1.recordAll
        [⟨"a", 1, some "x"⟩, ⟨"b", 2, none⟩]) "a" 3 (some "y") "a" 1 (by decide)
          (by decide)).2.2.1⟩

/-- C7: Collect on the recorder returned by NewServerMetrics, before any
RecordMetricQueryExecution call, sends no sample: the duration series and the
error-count series are both empty. -/
theorem fresh_recorder_collects_nothing (nspace exporter t : String) (M : Labels)
    (ch : List Sample) :
    (NewServerMetrics nspace exporter t M).1.MetricQueryDuration.metrics = [] ∧
    (NewServerMetrics nspace exporter t M).1.MetricQueryErrorTotal.metrics = [] ∧
    ((NewServerMetrics nspace exporter t M).1.Collect []).2 = [] ∧
    ((NewServerMetrics nspace exporter t M).1.Collect ch).2 = ch := by
  refine ⟨rfl, rfl, rfl, ?_⟩
  rw [collect_eq]
  have hs : (NewServerMetrics nspace exporter t M).1.samples = [] := rfl
  simp [hs]

/-- C8: Collect is a read: it leaves the recorder (constant labels, duration
series, error-count series) as it was and appends the recorder's samples to
the channel, so a second Collect with no call in between sends the same
samples as the first. -/
theorem collect_is_nondestructive (sm : ServerMetrics) (ch ch' : List Sample) :
    (sm.Collect ch).1 = sm ∧
    (sm.Collect ch).1.constLabels = sm.constLabels ∧
    (sm.Collect ch).1.MetricQueryDuration.metrics = sm.MetricQueryDuration.metrics ∧
    (sm.Collect ch).1.MetricQueryErrorTotal.metrics = sm.MetricQueryErrorTotal.metrics ∧
    (sm.Collect ch).2 = ch ++ sm.samples ∧
    ((sm.Collect ch).1.Collect ch').2 = ch' ++ sm.samples ∧
    ((sm.Collect ch).1.Collect (sm.Collect ch).2).2 = ch ++ sm.samples ++ sm.samples := by
  simp [collect_eq]

/-- C9, at the failing input: the recorder built for "db1" with an extra label
of empty name, after one failing call for "q", makes Collect send two
samples whose only label is query = "q"; neither carries datname = "db1" or
the extra label, which the claim has on every sample. -/
theorem samples_lack_constant_labels_for_invalid_label :
    (((NewServerMetrics "pg" "exporter" "db1" [("", "x")]).1.RecordMetricQueryExecution "q" 5
        (some "failed")).Collect []).2 =
      [{ fqName := BuildFQName "pg" "exporter" "metric_query_last_duration_seconds",
         labels := [("query", "q")],
         value := SampleValue.gauge (Duration.Seconds 5) },
       { fqName := BuildFQName "pg" "exporter" "metric_query_errors_total",
         labels := [("query", "q")],
         value := SampleValue.counter (Counter.exported 1) }] ∧
    (∀ s ∈ (((NewServerMetrics "pg" "exporter" "db1" [("", "x")]).1.RecordMetricQueryExecution
        "q" 5 (some "failed")).Collect []).2, Map.get s.labels "datname" = none) ∧
    Float64.toRat (Counter.exported 1) = 1 := by
  have hd1 : (NewServerMetrics "pg" "exporter" "db1" [("", "x")]).1.MetricQueryDuration.desc =
      { fqName := BuildFQName "pg" "exporter" "metric_query_last_duration_seconds",
        help := "Duration of the last metric query", constLabels := [],
        variableLabels := ["query"], err := some "not a valid label name" } := by
    decide
  have hd2 : (NewServerMetrics "pg" "exporter" "db1" [("", "x")]).1.MetricQueryErrorTotal.desc =
      { fqName := BuildFQName "pg" "exporter" "metric_query_errors_total",
        help := "Number of metric query execution errors", constLabels := [],
        variableLabels := ["query"], err := some "not a valid label name" } := by
    decide
  obtain ⟨hm1, hm2⟩ := record_metrics_of_empty
    (NewServerMetrics "pg" "exporter" "db1" [("", "x")]).1 "q" 5 "failed" rfl rfl
  have hsamples :
      (((NewServerMetrics "pg" "exporter" "db1" [("", "x")]).1.RecordMetricQueryExecution "q" 5
          (some "failed")).Collect []).2 =
        [{ fqName := BuildFQName "pg" "exporter" "metric_query_last_duration_seconds",
           labels := [("query", "q")],
           value := SampleValue.gauge (Duration.Seconds 5) },
         { fqName := BuildFQName "pg" "exporter" "metric_query_errors_total",
           labels := [("query", "q")],
           value := SampleValue.counter (Counter.exported 1) }] := by
    have hs := samples_eq ((NewServerMetrics "pg" "exporter" "db1"
      [("", "x")]).1.RecordMetricQueryExecution "q" 5 (some "failed"))
    rw [(record_desc _ _ _ _).1, (record_desc _ _ _ _).2, hd1, hd2, hm1, hm2] at hs
    show ServerMetrics.samples _ = _
    rw [hs]
    simp only [List.map_cons, List.map_nil, labelPairs, List.zip_cons_cons, List.zip_nil_right,
      List.cons_append, List.nil_append, List.append_nil]
  refine ⟨hsamples, ?_, Counter.toRat_exported 1 (by decide)⟩
  intro s hs
  rw [hsamples] at hs
  simp only [List.mem_cons, List.mem_singleton, List.mem_nil_iff, or_false] at hs
  rcases hs with h | h <;> rw [h] <;> decide

/-- C10: the recorder built for "db1" with the extra label env = "prod", after
the calls ("ping", 12 ms, nil) and ("ping", 8 ms, an error), makes Collect
send two samples, both with the labels query = "ping", env = "prod",
datname = "db1": a duration sample whose value is the float64 0.008 (neither
0.012 nor 0.020 nor 0) and an error-count sample of value 1.  The package
constants are any that give the two families valid names. -/
theorem scenario_ping (nspace exporter msg : String)
    (hd : isValidMetricName
      (BuildFQName nspace exporter "metric_query_last_duration_seconds") = true)
    (he : isValidMetricName (BuildFQName nspace exporter "metric_query_errors_total") = true) :
    ((((NewServerMetrics nspace exporter "db1" [("env", "prod")]).1.RecordMetricQueryExecution
        "ping" 12000000 none).RecordMetricQueryExecution "ping" 8000000 (some msg)).Collect []).2 =
      [{ fqName := BuildFQName nspace exporter "metric_query_last_duration_seconds",
         labels := [("query", "ping"), ("env", "prod"), ("datname", "db1")],
         value := SampleValue.gauge (Float64.ofDecimal 8 1000) },
       { fqName := BuildFQName nspace exporter "metric_query_errors_total",
         labels := [("query", "ping"), ("env", "prod"), ("datname", "db1")],
         value := SampleValue.counter (Float64.ofInt 1) }] ∧
    Float64.toRat (Float64.ofInt 1) = 1 ∧
    Duration.Seconds 8000000 = Float64.ofDecimal 8 1000 ∧
    Float64.ofDecimal 8 1000 = ⟨4611686018427388, -59⟩ ∧
    Float64.ofDecimal 8 1000 ≠ Float64.ofDecimal 12 1000 ∧
    Float64.ofDecimal 8 1000 ≠ Float64.ofDecimal 20 1000 ∧
    Float64.ofDecimal 8 1000 ≠ Float64.ofInt 0 ∧
    |Float64.toRat (Float64.ofDecimal 8 1000) - 8 / 1000| < 1 / 10 ^ 18 := by
  have hfresh : (NewServerMetrics nspace exporter "db1" [("env", "prod")]).1 =
      { MetricQueryDuration :=
          { desc :=
              { fqName := BuildFQName nspace exporter "metric_query_last_duration_seconds",
                help := "Duration of the last metric query",
                constLabels := [("env", "prod"), ("datname", "db1")],
                variableLabels := ["query"], err := none },
            metrics := [] },
        MetricQueryErrorTotal :=
          { desc :=
              { fqName := BuildFQName nspace exporter "metric_query_errors_total",
                help := "Number of metric query execution errors",
                constLabels := [("env", "prod"), ("datname", "db1")],
                variableLabels := ["query"], err := none },
            metrics := [] } } := by
    have hk : (Map.keys ([("env", "prod"), ("datname", "db1")] : Labels)).all checkLabelName =
        true := by decide
    have hq : (["query"] : List String).all checkLabelName = true := by decide
    have hn : (Map.keys ([("env", "prod"), ("datname", "db1")] : Labels) ++ ["query"]).Nodup := by
      decide
    have hc : Map.set (([("env", "prod")] : Labels).foldl (fun a kv => Map.set a kv.1 kv.2) [])
        "datname" "db1" = [("env", "prod"), ("datname", "db1")] := by decide
    simp only [NewServerMetrics, NewGaugeVec, NewCounterVec, NewDesc, hc, hd, he, hk, hq, hn,
      Bool.not_true, Bool.false_eq_true, if_false, not_true_eq_false]
  have hsec : Duration.Seconds 8000000 = Float64.ofDecimal 8 1000 := by decide
  have hone : Float64.ofInt 1 = ⟨4503599627370496, -52⟩ := by decide
  refine ⟨?_, ?_, hsec, by decide, by decide, by decide, by decide, ?_⟩
  · rw [hfresh, ← hsec]
    rfl
  · rw [hone, Float64.toRat]
    norm_num
  · have h : Float64.ofDecimal 8 1000 = ⟨4611686018427388, -59⟩ := by decide
    rw [h, Float64.toRat]
    norm_num [abs_lt]

theorem scenario_ping_witness :
    isValidMetricName (BuildFQName "pg" "exporter" "metric_query_last_duration_seconds") = true ∧
    isValidMetricName (BuildFQName "pg" "exporter" "metric_query_errors_total") = true ∧
    ((((NewServerMetrics "pg" "exporter" "db1" [("env", "prod")]).1.RecordMetricQueryExecution
        "ping" 12000000 none).RecordMetricQueryExecution "ping" 8000000
          (some "timeout")).Collect []).2 =
      [{ fqName := BuildFQName "pg" "exporter" "metric_query_last_duration_seconds",
         labels := [("query", "ping"), ("env", "prod"), ("datname", "db1")],
         value := SampleValue.gauge (Float64.ofDecimal 8 1000) },
       { fqName := BuildFQName "pg" "exporter" "metric_query_errors_total",
         labels := [("query", "ping"), ("env", "prod"), ("datname", "db1")],
         value := SampleValue.counter (Float64.ofInt 1) }] :=
  ⟨by decide, by decide,
    (scenario_ping "pg" "exporter" "timeout" (by decide) (by decide)).1⟩

/-- C11, the claim fails: a query name that is not valid UTF-8, such as the
one-byte string 0xFF (the encoding of no text), makes the call abort:
`WithLabelValues` panics on the label value, whatever the recorder state,
the duration and the error argument. -/
theorem record_aborts_on_invalid_utf8 :
    GoString.valid [0xFF] = false ∧
    (∀ q : String, GoString.ofText q ≠ [0xFF]) ∧
    ∀ (sm : ServerMetrics) (d : Duration) (e : Option String),
      sm.RecordMetricQueryExecutionRaw [0xFF] d e =
        Except.error "label value is not valid UTF-8" := by
  refine ⟨by decide, ?_, fun _ _ _ => rfl⟩
  intro q hq
  have ht := text_ofText q
  have hnone : GoString.text [0xFF] = none := by decide
  rw [hq, hnone] at ht
  cases ht

/-- C11, amended: on a query name that is valid UTF-8, the empty string
included, RecordMetricQueryExecution never fails: for every recorder state,
duration and error argument the call returns, its entries are written under
the name exactly as given (the key is the text of the name, and no other
name has that text), and no other key is written or added. -/
theorem record_never_fails_on_valid_name (sm : ServerMetrics) (queryName : GoString)
    (q : String) (d : Duration) (e : Option String) (hq : queryName.text = some q) :
    sm.RecordMetricQueryExecutionRaw queryName d e =
      Except.ok (sm.RecordMetricQueryExecution q d e) ∧
    (sm.RecordMetricQueryExecution q d e).duration q = some (Duration.Seconds d) ∧
    (sm.RecordMetricQueryExecution q d e).errorCount q =
      some ((sm.errorCount q).getD 0 + (if e.isSome then 1 else 0)) ∧
    (∀ k, k ≠ q →
      (sm.RecordMetricQueryExecution q d e).duration k = sm.duration k ∧
      (sm.RecordMetricQueryExecution q d e).errorCount k = sm.errorCount k) ∧
    Map.keys (sm.RecordMetricQueryExecution q d e).MetricQueryDuration.metrics =
      (if q ∈ Map.keys sm.MetricQueryDuration.metrics then
        Map.keys sm.MetricQueryDuration.metrics
      else Map.keys sm.MetricQueryDuration.metrics ++ [q]) ∧
    Map.keys (sm.RecordMetricQueryExecution q d e).MetricQueryErrorTotal.metrics =
      (if q ∈ Map.keys sm.MetricQueryErrorTotal.metrics then
        Map.keys sm.MetricQueryErrorTotal.metrics
      else Map.keys sm.MetricQueryErrorTotal.metrics ++ [q]) ∧
    (∀ other : GoString, other.text = some q → other = queryName) ∧
    GoString.text [] = some "" := by
  refine ⟨?_, ?_, ?_, ?_, (record_keys sm q d e).1, (record_keys sm q d e).2,
    fun other ho => text_injective other queryName q ho hq, rfl⟩
  · simp [ServerMetrics.RecordMetricQueryExecutionRaw, hq]
  · rw [duration_record]
    simp
  · rw [errorCount_record]
    simp
  · intro k hk
    rw [duration_record, errorCount_record]
    simp [hk]

theorem record_never_fails_on_valid_name_witness :
    GoString.text [] = some "" ∧
    (NewServerMetrics "pg" "exporter" "db1" []).1.RecordMetricQueryExecutionRaw [] 7 (some "x") =
      Except.ok ((NewServerMetrics "pg" "exporter" "db1" []).1.RecordMetricQueryExecution "" 7
        (some "x")) ∧
    Map.keys ((NewServerMetrics "pg" "exporter" "db1" []).1.RecordMetricQueryExecution "" 7
      (some "x")).MetricQueryErrorTotal.metrics = [""] :=
  ⟨by decide,
    (record_never_fails_on_valid_name (NewServerMetrics "pg" "exporter" "db1" []).1 [] "" 7
      (some "x") (by decide)).1,
    by decide⟩

/-- C12: NewServerMetrics copies the caller's extra-label map: every map that
existed before the call, the caller's map M among them, has the same content
after it ("datname" is neither inserted nor overwritten in M); the recorder
is the one determined by the content of M at the time of the call; and the
map the function fills is a new one, which a later assignment to M by the
caller leaves as it was, equal to M's old content with "datname" set, which
are the recorder's constant labels when the definitions are valid. -/
theorem newServerMetrics_copies_labels (nspace exporter : String) (h : Heap) (t : String)
    (M : MapRef) (hM : M < h.length) :
    (∀ r, r < h.length →
      Heap.read (NewServerMetricsOnHeap nspace exporter h t M).1 r = Heap.read h r) ∧
    Heap.read (NewServerMetricsOnHeap nspace exporter h t M).1 M = Heap.read h M ∧
    (NewServerMetricsOnHeap nspace exporter h t M).2.1 =
      (NewServerMetrics nspace exporter t (Heap.read h M)).1 ∧
    (∀ M' : Labels,
      Heap.read (Heap.write (NewServerMetricsOnHeap nspace exporter h t M).1 M M') h.length =
        Map.set ((Heap.read h M).foldl (fun a kv => Map.set a kv.1 kv.2) []) "datname" t ∧
      ((NewServerMetricsOnHeap nspace exporter h t M).2.1.MetricQueryDuration.desc.err = none →
        Heap.read (Heap.write (NewServerMetricsOnHeap nspace exporter h t M).1 M M') h.length =
          (NewServerMetricsOnHeap nspace exporter h t M).2.1.constLabels) ∧
      (NewServerMetricsOnHeap nspace exporter h t M).2.1.constLabels =
        (NewServerMetrics nspace exporter t (Heap.read h M)).1.constLabels) := by
  rw [newServerMetricsOnHeap_eq nspace exporter h t M hM]
  refine ⟨fun r hr => Heap.read_append_lt h _ r hr, Heap.read_append_lt h _ M hM, rfl, ?_⟩
  intro M'
  have hnew : Heap.read (Heap.write
      (h ++ [Map.set ((Heap.read h M).foldl (fun a kv => Map.set a kv.1 kv.2) []) "datname" t])
      M M') h.length =
      Map.set ((Heap.read h M).foldl (fun a kv => Map.set a kv.1 kv.2) []) "datname" t := by
    rw [Heap.read_write_ne _ _ _ _ (Nat.ne_of_gt hM), Heap.read_append_length]
  refine ⟨hnew, ?_, rfl⟩
  intro hv
  rw [hnew]
  exact (newServerMetrics_constLabels nspace exporter t (Heap.read h M) hv).symm

theorem newServerMetrics_copies_labels_witness :
    (0 : MapRef) < ([[("env", "prod"), ("datname", "other")]] : Heap).length ∧
    Heap.read (NewServerMetricsOnHeap "pg" "exporter" [[("env", "prod"), ("datname", "other")]]
      "db1" 0).1 0 = [("env", "prod"), ("datname", "other")] ∧
    (NewServerMetricsOnHeap "pg" "exporter" [[("env", "prod"), ("datname", "other")]]
      "db1" 0).2.1.constLabels = [("env", "prod"), ("datname", "db1")] :=
  ⟨by decide,
    (newServerMetrics_copies_labels "pg" "exporter" [[("env", "prod"), ("datname", "other")]]
      "db1" 0 (by decide)).2.1,
    by decide⟩

/-- C14: a RecordMetricQueryExecution call for `q` leaves the duration entry
and the error-count entry of every other name `p` as they were, present or
absent; and after any sequence of calls the duration and the error count of
a name are those obtained by applying only the calls for that name, as for
two names "a" and "b" recorded in any interleaving. -/
theorem record_frame (sm : ServerMetrics) (q : String) (d : Duration) (e : Option String)
    (p : String) (hp : p ≠ q) :
    (sm.RecordMetricQueryExecution q d e).duration p = sm.duration p ∧
    (sm.RecordMetricQueryExecution q d e).errorCount p = sm.errorCount p ∧
    ∀ (calls : List Call) (name : String),
      (sm.recordAll calls).duration name = (sm.recordAll (callsFor calls name)).duration name ∧
      (sm.recordAll calls).errorCount name =
        (sm.recordAll (callsFor calls name)).errorCount name := by
  refine ⟨?_, ?_, fun calls name => recordAll_callsFor calls sm sm name rfl rfl⟩
  · rw [duration_record]
    simp [hp]
  · rw [errorCount_record]
    simp [hp]

theorem record_frame_witness :
    "b" ≠ "a" ∧
    (((NewServerMetrics "pg" "exporter" "db1" []).1.RecordMetricQueryExecution "b" 9
        none).RecordMetricQueryExecution "a" 5 (some "x")).errorCount "b" = some 0 ∧
    callsFor [⟨"a", 1, some "x"⟩, ⟨"b", 2, none⟩, ⟨"a", 3, none⟩, ⟨"b", 4, some "y"⟩] "a" =
      [⟨"a", 1, some "x"⟩, ⟨"a", 3, none⟩] ∧
    ((NewServerMetrics "pg" "exporter" "db1" []).1.recordAll
        [⟨"a", 1, some "x"⟩, ⟨"b", 2, none⟩, ⟨"a", 3, none⟩, ⟨"b", 4, some "y"⟩]).duration "a" =
      ((NewServerMetrics "pg" "exporter" "db1" []).1.recordAll
        (callsFor [⟨"a", 1, some "x"⟩, ⟨"b", 2, none⟩, ⟨"a", 3, none⟩, ⟨"b", 4, some "y"⟩]
          "a")).duration "a" :=
  ⟨by decide,
    ((record_frame
      ((NewServerMetrics "pg" "exporter" "db1" []).1.RecordMetricQueryExecution "b" 9 none)
      "a" 5 (some "x") "b" (by decide)).2.1).trans (by decide),
    by decide,
    ((record_frame (NewServerMetrics "pg" "exporter" "db1" []).1 "a" 5 none "b"
      (by decide)).2.2 _ "a").1⟩

/-- C15: in every state reached from a fresh recorder by
RecordMetricQueryExecution calls, the duration series and the error-count
series hold the same query names, each once, namely the names recorded so
far; Collect sends exactly one duration sample and one error-count sample for
each recorded name, none for any other name, 2n samples for n distinct
names. -/
theorem series_share_recorded_names (nspace exporter t : String) (M : Labels)
    (calls : List Call) :
    Map.keys ((NewServerMetrics nspace exporter t M).1.recordAll
        calls).MetricQueryDuration.metrics =
      Map.keys ((NewServerMetrics nspace exporter t M).1.recordAll
        calls).MetricQueryErrorTotal.metrics ∧
    (Map.keys ((NewServerMetrics nspace exporter t M).1.recordAll
        calls).MetricQueryDuration.metrics).Nodup ∧
    (∀ q, q ∈ Map.keys ((NewServerMetrics nspace exporter t M).1.recordAll
        calls).MetricQueryDuration.metrics ↔ q ∈ calls.map Call.queryName) ∧
    (((NewServerMetrics nspace exporter t M).1.recordAll calls).Collect []).2.length =
      2 * (calls.map Call.queryName).dedup.length ∧
    ∀ q,
      durationSamplesOf
          (((NewServerMetrics nspace exporter t M).1.recordAll calls).Collect []).2 q =
        (if q ∈ calls.map Call.queryName then 1 else 0) ∧
      errorSamplesOf
          (((NewServerMetrics nspace exporter t M).1.recordAll calls).Collect []).2 q =
        (if q ∈ calls.map Call.queryName then 1 else 0) := by
  obtain ⟨hd1, hd2⟩ := recordAll_desc calls (NewServerMetrics nspace exporter t M).1
  obtain ⟨hn1, hn2⟩ := recordAll_nodupKeys calls (NewServerMetrics nspace exporter t M).1
    (by simp [NewServerMetrics, NewGaugeVec, Map.NodupKeys, Map.keys])
    (by simp [NewServerMetrics, NewCounterVec, Map.NodupKeys, Map.keys])
  obtain ⟨hk, hmem⟩ := recordAll_keys calls (NewServerMetrics nspace exporter t M).1 rfl
  have hmem' : ∀ q, q ∈ Map.keys ((NewServerMetrics nspace exporter t M).1.recordAll
      calls).MetricQueryDuration.metrics ↔ q ∈ calls.map Call.queryName := by
    intro q
    rw [hmem q]
    simp [NewServerMetrics, NewGaugeVec, Map.keys]
  have hlen := length_keys_eq_dedup _ _ hn1 hmem'
  refine ⟨hk, hn1, hmem', ?_, ?_⟩
  · have hs : (((NewServerMetrics nspace exporter t M).1.recordAll calls).Collect []).2 =
        ((NewServerMetrics nspace exporter t M).1.recordAll calls).samples := rfl
    have hlen2 : (Map.keys ((NewServerMetrics nspace exporter t M).1.recordAll
        calls).MetricQueryErrorTotal.metrics).length = (calls.map Call.queryName).dedup.length := by
      rw [← hk]
      exact hlen
    simp only [Map.keys, List.length_map] at hlen hlen2
    rw [hs, samples_eq, List.length_append, List.length_map, List.length_map, hlen, hlen2]
    omega
  · intro q
    have hs : (((NewServerMetrics nspace exporter t M).1.recordAll calls).Collect []).2 =
        ((NewServerMetrics nspace exporter t M).1.recordAll calls).samples := rfl
    rw [hs, durationSamplesOf_samples _ q (by rw [hd1]; rfl) hn1,
      errorSamplesOf_samples _ q (by rw [hd2]; rfl) hn2, ← hk]
    have hiff := hmem' q
    by_cases hin : q ∈ calls.map Call.queryName
    · simp [hin, hiff.2 hin]
    · have hnin : q ∉ Map.keys ((NewServerMetrics nspace exporter t M).1.recordAll
          calls).MetricQueryDuration.metrics := fun x => hin (hiff.1 x)
      simp [hin, hnin]

/-- C16: RecordMetricQueryExecution neither validates nor clamps the
duration: for a negative duration `d` the duration entry of `q` becomes
`d` in seconds, a negative value (the negation of the seconds of `-d`), not
0 and not the value of the absolute duration, and the error-count entry is
updated from the error argument as for any other call. -/
theorem negative_duration_is_stored (sm : ServerMetrics) (q : String) (d : Duration)
    (e : Option String) (hd : d < 0) :
    (sm.RecordMetricQueryExecution q d e).duration q = some (Duration.Seconds d) ∧
    (Duration.Seconds d).mant < 0 ∧
    Float64.toRat (Duration.Seconds d) < 0 ∧
    Duration.Seconds d = Float64.neg (Duration.Seconds (-d)) ∧
    Duration.Seconds d ≠ Float64.zero ∧
    Duration.Seconds d ≠ Duration.Seconds (-d) ∧
    (sm.RecordMetricQueryExecution q d e).errorCount q =
      some ((sm.errorCount q).getD 0 + (if e.isSome then 1 else 0)) := by
  have hneg : (Duration.Seconds d).mant < 0 := Duration.Seconds_mant_neg d hd
  have hsym : Duration.Seconds (-d) = Float64.neg (Duration.Seconds d) := Duration.Seconds_neg d
  refine ⟨?_, hneg, ?_, ?_, ?_, ?_, ?_⟩
  · rw [duration_record]
    simp
  · unfold Float64.toRat
    apply mul_neg_of_neg_of_pos
    · exact_mod_cast hneg
    · positivity
  · rw [hsym]
    simp [Float64.neg]
  · intro h0
    rw [h0] at hneg
    exact absurd hneg (by decide)
  · intro heq
    have hm : (Duration.Seconds (-d)).mant = -(Duration.Seconds d).mant := by
      rw [hsym]
      rfl
    rw [← heq] at hm
    omega
  · rw [errorCount_record]
    simp

theorem negative_duration_is_stored_witness :
    ((-1500000000 : Duration) < 0) ∧
    ((NewServerMetrics "pg" "exporter" "db1" []).1.RecordMetricQueryExecution "ping"
        (-1500000000) none).duration "ping" = some (Duration.Seconds (-1500000000)) ∧
    Duration.Seconds (-1500000000) = ⟨-6755399441055744, -52⟩ ∧
    ((NewServerMetrics "pg" "exporter" "db1" []).1.RecordMetricQueryExecution "ping"
        (-1500000000) none).errorCount "ping" = some 0 :=
  ⟨by decide,
    (negative_duration_is_stored (NewServerMetrics "pg" "exporter" "db1" []).1 "ping"
      (-1500000000) none (by decide)).1,
    by decide, by decide⟩

end PostgresExporter
